import Mathlib

/-!
Shallow embedding of the AIG implementation (src/src/aig/aig.cpp) and
verification of its specification claims.

Literals are natural numbers encoding (node id, inversion bit); the graph is a
record of the node arena, the primary-input id list, the output literal list
and the structural-hash table used by addAnd.  Fallible C++ operations
(those that can throw std::out_of_range or std::runtime_error) are modelled
with Except String; the unbounded recursion inside optimize is modelled with
explicit fuel, instantiated at nodes.length + 1 which is enough for every
acyclic graph (the C++ recursion likewise terminates only on acyclic graphs).
-/

/-- Modelled from the spec: literal encoding (the aig.h header is not part of
the given sources); a literal is the unsigned integer (node id << 1) | inversion bit. -/
def make_lit (id : Nat) (inv : Bool) : Nat := 2 * id + (if inv then 1 else 0)

/-- Modelled from the spec: the node id of a literal. -/
def lit_id (lit : Nat) : Nat := lit / 2

/-- Modelled from the spec: the inversion bit of a literal. -/
def lit_inv (lit : Nat) : Bool := lit % 2 = 1

/-- Mirrors the C++ expression lit ^ b where b is a bool promoted to 0/1. -/
def litFlip (lit : Nat) (b : Bool) : Nat := if b then lit ^^^ 1 else lit

/-- One AIG node: the constant (id 0), a primary input, or a two-input AND gate. -/
structure AigNode where
  fanin0 : Nat := 0
  fanin1 : Nat := 0
  is_input : Bool := false
deriving DecidableEq, Repr

/-- The graph store: node arena, primary-input ids, output literals and the
structural-hash table (keyed by the normalized fanin pair, as the C++ packs
the two 32-bit literals into one 64-bit key). -/
structure AigGraph where
  nodes : List AigNode
  inputs : List Nat
  outputs : List Nat
  computed_table : List ((Nat × Nat) × Nat)
deriving DecidableEq, Repr

/-- The AigGraph constructor: node 0 is the constant 0. -/
def aigInit : AigGraph := ⟨[⟨0, 0, false⟩], [], [], []⟩

/-- Association-list lookup for the structural-hash tables. -/
def tableLookup (t : List ((Nat × Nat) × Nat)) (k : Nat × Nat) : Option Nat :=
  match t with
  | [] => none
  | (k₀, v) :: rest => if k₀ = k then some v else tableLookup rest k

/-- The fanin-pair normalization performed by addAnd: smaller literal first. -/
def normPair (lit0 lit1 : Nat) : Nat × Nat :=
  if lit0 > lit1 then (lit1, lit0) else (lit0, lit1)

/-- AigGraph::addInput: append an input node, record its id in the input list. -/
def addInput (g : AigGraph) : Nat × AigGraph :=
  let id := g.nodes.length
  (id, { g with nodes := g.nodes ++ [⟨0, 0, true⟩], inputs := g.inputs ++ [id] })

/-- AigGraph::addAnd: trivial-rule ladder, structural-hash probe, range check,
then allocation of a new gate with normalized fanins. -/
def addAnd (g : AigGraph) (lit0 lit1 : Nat) : Except String (Nat × AigGraph) :=
  if lit0 = 0 ∨ lit1 = 0 then .ok (0, g)
  else if lit0 = 1 then .ok (lit1, g)
  else if lit1 = 1 then .ok (lit0, g)
  else if lit0 = lit1 then .ok (lit0, g)
  else if lit0 = lit1 ^^^ 1 then .ok (0, g)
  else
    let p := normPair lit0 lit1
    match tableLookup g.computed_table p with
    | some v => .ok (v, g)
    | none =>
      if lit_id p.1 ≥ g.nodes.length ∨ lit_id p.2 ≥ g.nodes.length then
        .error "addAnd inputs invalid"
      else
        let id := g.nodes.length
        let res := make_lit id false
        .ok (res, { g with
          nodes := g.nodes ++ [⟨p.1, p.2, false⟩],
          computed_table := (p, res) :: g.computed_table })

/-- AigGraph::addOutput: range-check the literal, then append it to the outputs. -/
def addOutput (g : AigGraph) (lit : Nat) : Except String AigGraph :=
  if lit_id lit ≥ g.nodes.length then
    .error "addOutput: literal refers to nonexistent node"
  else
    .ok { g with outputs := g.outputs ++ [lit] }

/-- AigGraph::hasAnd: notes that only literal 0 takes the constant fast path. -/
def hasAnd (g : AigGraph) (lit0 lit1 : Nat) : Bool :=
  if lit0 = 0 ∨ lit1 = 0 then true
  else (tableLookup g.computed_table (normPair lit0 lit1)).isSome

/-- Increment one counter of a reference-count vector. -/
def bumpRef (refs : List Nat) (i : Nat) : List Nat :=
  refs.set i (refs.getD i 0 + 1)

/-- AigGraph::build_refs: count, per node id, the references from every gate
fanin (ids 1..N-1) and from every output literal. -/
def build_refs (g : AigGraph) : List Nat :=
  let init := List.replicate g.nodes.length 0
  let afterGates := (List.range' 1 (g.nodes.length - 1)).foldl (fun refs i =>
    match g.nodes.get? i with
    | none => refs
    | some n =>
      if n.is_input then refs
      else bumpRef (bumpRef refs (lit_id n.fanin0)) (lit_id n.fanin1)) init
  g.outputs.foldl (fun refs out => bumpRef refs (lit_id out)) afterGates

/-- AigGraph::depthRec, with fuel standing in for the memoized recursion
(memoization changes cost, not value, on acyclic graphs). -/
def depthRec (nodes : List AigNode) : Nat → Nat → Nat
  | 0, _ => 0
  | fuel + 1, id =>
    match nodes.get? id with
    | none => 0
    | some n =>
      if id = 0 ∨ n.is_input then 0
      else
        max (depthRec nodes fuel (lit_id n.fanin0))
            (depthRec nodes fuel (lit_id n.fanin1)) + 1

/-- AigGraph::depth: maximum over all outputs. -/
def depth (g : AigGraph) : Nat :=
  g.outputs.foldl (fun m lit => max m (depthRec g.nodes g.nodes.length (lit_id lit))) 0

/-- AigGraph::countAnds: non-input nodes with id at least 1. -/
def countAnds (g : AigGraph) : Nat :=
  ((g.nodes.drop 1).filter (fun n => !n.is_input)).length

/-- AigGraph::countInverters: nodes whose signal is consumed, anywhere, in
inverted form, counted once per node. -/
def countInverters (g : AigGraph) : Nat :=
  let init := List.replicate g.nodes.length false
  let afterGates := (List.range' 1 (g.nodes.length - 1)).foldl (fun marks i =>
    match g.nodes.get? i with
    | none => marks
    | some n =>
      if n.is_input then marks
      else
        let m1 := if lit_inv n.fanin0 then marks.set (lit_id n.fanin0) true else marks
        if lit_inv n.fanin1 then m1.set (lit_id n.fanin1) true else m1) init
  let marks := g.outputs.foldl (fun marks lit =>
    if lit_inv lit then marks.set (lit_id lit) true else marks) afterGates
  (marks.filter (fun b => b)).length

/-- The mutable state of AigGraph::optimize's rebuild: the new node arena, the
rebuild-scoped strash table, and the old-id-to-new-literal map (UINT32_MAX
modelled as none). -/
structure OptState where
  new_nodes : List AigNode
  strash : List ((Nat × Nat) × Nat)
  old2new : List (Option Nat)
deriving DecidableEq, Repr

/-- The algebraic-simplification / strashing step applied by get_new_lit to the
two resolved fanin literals. -/
def strashStep (st : OptState) (l0 l1 : Nat) : OptState × Nat :=
  if l0 = 0 ∨ l1 = 0 then (st, 0)
  else if l0 = 1 then (st, l1)
  else if l1 = 1 then (st, l0)
  else if l0 = l1 then (st, l0)
  else if l0 = l1 ^^^ 1 then (st, 0)
  else
    let p := normPair l0 l1
    match tableLookup st.strash p with
    | some r => (st, r)
    | none =>
      let nid := st.new_nodes.length
      let r := make_lit nid false
      ({ st with new_nodes := st.new_nodes ++ [⟨p.1, p.2, false⟩],
                 strash := (p, r) :: st.strash }, r)

/-- The recursive resolver get_new_lit of AigGraph::optimize.  Out-of-range
node accesses (undefined behaviour in the C++) and fuel exhaustion (the C++
recursion not terminating) are both modelled as errors. -/
def get_new_lit (g : AigGraph) : Nat → OptState → Nat → Except String (OptState × Nat)
  | 0, _, _ => .error "optimize: fuel exhausted"
  | fuel + 1, st, old_lit =>
    let old_id := lit_id old_lit
    match st.old2new.getD old_id none with
    | some res => .ok (st, litFlip res (lit_inv old_lit))
    | none =>
      match g.nodes.get? old_id with
      | none => .error "optimize: node out of range"
      | some n =>
        if n.is_input ∨ old_id = 0 then .error "Unexpected unmapped input or const"
        else
          match get_new_lit g fuel st n.fanin0 with
          | .error e => .error e
          | .ok (st1, l0) =>
            match get_new_lit g fuel st1 n.fanin1 with
            | .error e => .error e
            | .ok (st2, l1) =>
              let sr := strashStep st2 l0 l1
              .ok ({ sr.1 with old2new := sr.1.old2new.set old_id (some sr.2) },
                   litFlip sr.2 (lit_inv old_lit))

/-- The initial rebuild state of optimize: the constant node copied over and
old id 0 pre-mapped to literal 0. -/
def initOptState (g : AigGraph) (n0 : AigNode) : OptState :=
  ⟨[n0], [], (List.replicate g.nodes.length (none : Option Nat)).set 0 (some 0)⟩

/-- One step of optimize's input pre-seeding: allocate a fresh input node and
record the old input's new literal. -/
def seedStep (acc : OptState × List Nat) (old_in : Nat) : OptState × List Nat :=
  let new_id := acc.1.new_nodes.length
  ({ acc.1 with
      new_nodes := acc.1.new_nodes ++ [⟨0, 0, true⟩],
      old2new := acc.1.old2new.set old_in (some (make_lit new_id false)) },
   acc.2 ++ [new_id])

/-- Step 2 of optimize: allocate a fresh input node for every primary input,
in order, pre-seeding the old-to-new map. -/
def seedInputs (g : AigGraph) (st : OptState) : OptState × List Nat :=
  g.inputs.foldl seedStep (st, [])

/-- Step 4 of optimize: resolve every output literal, in output order. -/
def resolveOutputs (g : AigGraph) (fuel : Nat) : List Nat → OptState → Except String (OptState × List Nat)
  | [], st => .ok (st, [])
  | out :: rest, st =>
    match get_new_lit g fuel st out with
    | .error e => .error e
    | .ok (st1, r) =>
      match resolveOutputs g fuel rest st1 with
      | .error e => .error e
      | .ok (st2, rs) => .ok (st2, r :: rs)

/-- AigGraph::optimize: output-driven rebuild with dead-code elimination; the
incremental hash table is replaced by the rebuild's strash table. -/
def optimize (g : AigGraph) : Except String AigGraph :=
  match g.nodes with
  | [] => .error "optimize: empty node array"
  | n0 :: _ =>
    let seeded := seedInputs g (initOptState g n0)
    match resolveOutputs g (g.nodes.length + 1) g.outputs seeded.1 with
    | .error e => .error e
    | .ok (st2, new_outputs) =>
      .ok { nodes := st2.new_nodes, inputs := seeded.2,
            outputs := new_outputs, computed_table := st2.strash }

/-- The free function rewriteRedundant of the rewrite engine (phase 2):
if one fanin's node is a non-input whose fanins contain the other fanin
literal, the gate is replaced by that fanin. -/
def rewriteRedundant (g : AigGraph) (id : Nat) : Except String (Option Nat) :=
  match g.nodes.get? id with
  | none => .error "rewriteRedundant: node out of range"
  | some n =>
    if n.is_input then .ok none
    else
      let x := n.fanin0
      let y := n.fanin1
      match g.nodes.get? (lit_id x) with
      | none => .error "rewriteRedundant: node out of range"
      | some nx =>
        if !nx.is_input ∧ (nx.fanin0 = y ∨ nx.fanin1 = y) then .ok (some x)
        else
          match g.nodes.get? (lit_id y) with
          | none => .error "rewriteRedundant: node out of range"
          | some ny =>
            if !ny.is_input ∧ (ny.fanin0 = x ∨ ny.fanin1 = x) then .ok (some y)
            else .ok none

/-- The free function rewriteNegAbsorb (phase 2): a gate with complementary
fanins is the constant 0. -/
def rewriteNegAbsorb (g : AigGraph) (id : Nat) : Except String (Option Nat) :=
  match g.nodes.get? id with
  | none => .error "rewriteNegAbsorb: node out of range"
  | some n =>
    if n.is_input then .ok none
    else if n.fanin0 = n.fanin1 ^^^ 1 ∨ n.fanin1 = n.fanin0 ^^^ 1 then .ok (some 0)
    else .ok none

/-- The gain computed by rewriteCommonFactor_P1's pull: the number of the two
fanin sub-gates x, y whose reference count is exactly 1. -/
def gainOf (refs : List Nat) (x y : Nat) : Nat :=
  (if refs.getD (lit_id x) 0 = 1 then 1 else 0) +
  (if refs.getD (lit_id y) 0 = 1 then 1 else 0)

/-- The cost computed by rewriteCommonFactor_P1's pull: 1 for the new root
gate, plus 1 if the inner gate AND(a,b) must be freshly created. -/
def costOf (g : AigGraph) (a b : Nat) : Nat :=
  (if hasAnd g a b then 0 else 1) + 1

/-- The cost/gain-gated pull helper of rewriteCommonFactor_P1. -/
def pullCF (g : AigGraph) (refs : List Nat) (x y c a b : Nat) :
    Except String (Option (Nat × AigGraph)) :=
  if gainOf refs x y < costOf g a b then .ok none
  else
    match addAnd g a b with
    | .error e => .error e
    | .ok (t, g1) =>
      match addAnd g1 c t with
      | .error e => .error e
      | .ok (nl, g2) => .ok (some (nl, g2))

/-- The free function rewriteCommonFactor_P1 (phase 1): common-factor
extraction AND(AND(c,a), AND(c,b)) to AND(c, AND(a,b)), gated by pullCF. -/
def rewriteCommonFactor_P1 (g : AigGraph) (refs : List Nat) (id : Nat) :
    Except String (Option (Nat × AigGraph)) :=
  match g.nodes.get? id with
  | none => .error "rewriteCommonFactor_P1: node out of range"
  | some nd =>
    if nd.is_input then .ok none
    else
      let x := nd.fanin0
      let y := nd.fanin1
      match g.nodes.get? (lit_id x), g.nodes.get? (lit_id y) with
      | some nx, some ny =>
        if nx.is_input ∨ ny.is_input then .ok none
        else
          let xa := nx.fanin0
          let xb := nx.fanin1
          let ya := ny.fanin0
          let yb := ny.fanin1
          if xa = ya then pullCF g refs x y xa xb yb
          else if xa = yb then pullCF g refs x y xa xb ya
          else if xb = ya then pullCF g refs x y xb xa yb
          else if xb = yb then pullCF g refs x y xb xa ya
          else .ok none
      | _, _ => .error "rewriteCommonFactor_P1: node out of range"

/-- Overwrite the two fanins of node id, as phase 1 does after a successful
common-factor rewrite (fanin1 becomes the constant-true literal 1). -/
def setFanins (nodes : List AigNode) (id nl : Nat) : List AigNode :=
  match nodes.get? id with
  | none => nodes
  | some n => nodes.set id { n with fanin0 := nl, fanin1 := 1 }

/-- One iteration of the rewrite_phase1 loop at a given gate id. -/
def phase1Step (refs : List Nat) (g : AigGraph) (id : Nat) : Except String AigGraph :=
  match g.nodes.get? id with
  | none => .ok g
  | some n =>
    if n.is_input then .ok g
    else
      match rewriteCommonFactor_P1 g refs id with
      | .error e => .error e
      | .ok none => .ok g
      | .ok (some (nl, g2)) => .ok { g2 with nodes := setFanins g2.nodes id nl }

/-- AigGraph::rewrite_phase1: scan ids 1..N-1 in increasing order with the
reference counts precomputed on the phase's initial graph. -/
def rewrite_phase1 (g : AigGraph) : Except String AigGraph :=
  let N := g.nodes.length
  let refs := build_refs g
  (List.range' 1 (N - 1)).foldlM (fun acc id => phase1Step refs acc id) g

/-- First loop of rewrite_phase2: build the replacement map over gate ids. -/
def buildReplace (g : AigGraph) : Except String (List (Option Nat)) :=
  (List.range' 1 (g.nodes.length - 1)).foldlM (fun repl id =>
    match g.nodes.get? id with
    | none => .ok repl
    | some n =>
      if n.is_input then .ok repl
      else
        match rewriteNegAbsorb g id with
        | .error e => .error e
        | .ok (some nl) => .ok (repl.set id (some nl))
        | .ok none =>
          match rewriteRedundant g id with
          | .error e => .error e
          | .ok (some nl) => .ok (repl.set id (some nl))
          | .ok none =>
            if n.fanin0 = n.fanin1 then .ok (repl.set id (some n.fanin0))
            else .ok repl) (List.replicate g.nodes.length (none : Option Nat))

/-- Second loop of rewrite_phase2: rewire every surviving gate's fanins that
reference a replaced gate id, composing with the original inversion bit. -/
def rewireNodes (replace : List (Option Nat)) (N : Nat) (nodes : List AigNode) : List AigNode :=
  (List.range' 1 (N - 1)).foldl (fun ns id =>
    match ns.get? id with
    | none => ns
    | some n =>
      if n.is_input then ns
      else
        let f0 := match replace.getD (lit_id n.fanin0) none with
          | some r => litFlip r (lit_inv n.fanin0)
          | none => n.fanin0
        let f1 := match replace.getD (lit_id n.fanin1) none with
          | some r => litFlip r (lit_inv n.fanin1)
          | none => n.fanin1
        ns.set id { n with fanin0 := f0, fanin1 := f1 }) nodes

/-- AigGraph::rewrite_phase2: replacement-map construction, rewiring, then a
final canonicalization. -/
def rewrite_phase2 (g : AigGraph) : Except String AigGraph :=
  match buildReplace g with
  | .error e => .error e
  | .ok repl => optimize { g with nodes := rewireNodes repl g.nodes.length g.nodes }

/-- One round of AigGraph::rewrite: phase 1, canonicalize, phase 2. -/
def rewriteRound (g : AigGraph) : Except String AigGraph :=
  match rewrite_phase1 g with
  | .error e => .error e
  | .ok g1 =>
    match optimize g1 with
    | .error e => .error e
    | .ok g2 => rewrite_phase2 g2

/-- AigGraph::rewrite: exactly three rounds. -/
def rewrite (g : AigGraph) : Except String AigGraph :=
  match rewriteRound g with
  | .error e => .error e
  | .ok g1 =>
    match rewriteRound g1 with
    | .error e => .error e
    | .ok g2 => rewriteRound g2

/-- Modelled from the spec: the Boolean function computed by the graph (the
sources contain no evaluator; section 8 of the spec defines functional
equivalence by truth tables over the primary inputs).  env assigns a value to
each primary input by its position in the input list; node 0 is constant
false; fuel bounds the recursion as in depthRec. -/
def evalNode (g : AigGraph) (env : List Bool) : Nat → Nat → Bool
  | 0, _ => false
  | fuel + 1, id =>
    match g.nodes.get? id with
    | none => false
    | some n =>
      if id = 0 then false
      else if n.is_input then env.getD (g.inputs.indexOf id) false
      else
        let v0 := evalNode g env fuel (lit_id n.fanin0) != lit_inv n.fanin0
        let v1 := evalNode g env fuel (lit_id n.fanin1) != lit_inv n.fanin1
        v0 && v1

/-- Modelled from the spec: the Boolean value of a literal under an input
assignment. -/
def evalLit (g : AigGraph) (env : List Bool) (lit : Nat) : Bool :=
  evalNode g env g.nodes.length (lit_id lit) != lit_inv lit

/-- Modelled from the spec: the tuple of Boolean values of the primary
outputs under an input assignment. -/
def evalOutputs (g : AigGraph) (env : List Bool) : List Bool :=
  g.outputs.map (evalLit g env)

/-! Basic facts about the literal algebra. -/

theorem xor1_xor1 (x : Nat) : x ^^^ 1 ^^^ 1 = x := by
  rw [Nat.xor_assoc, Nat.xor_self, Nat.xor_zero]

theorem ne_xor1_self (x : Nat) : x ≠ x ^^^ 1 := by
  intro h
  have h2 : x ^^^ x = x ^^^ (x ^^^ 1) := by rw [← h]
  rw [Nat.xor_self, ← Nat.xor_assoc, Nat.xor_self, Nat.zero_xor] at h2
  exact absurd h2 (by decide)

theorem xor1_eq_zero_iff (x : Nat) : x ^^^ 1 = 0 ↔ x = 1 := by
  constructor
  · intro h
    have := congrArg (fun t => t ^^^ 1) h
    simpa [xor1_xor1] using this
  · intro h; subst h; rfl

theorem xor1_eq_one_iff (x : Nat) : x ^^^ 1 = 1 ↔ x = 0 := by
  constructor
  · intro h
    have := congrArg (fun t => t ^^^ 1) h
    simpa [xor1_xor1] using this
  · intro h; subst h; rfl

/-- The trivial-simplification guard of addAnd: one of the five algebraic
rules applies to the argument pair. -/
def trivialAnd (a b : Nat) : Prop :=
  a = 0 ∨ b = 0 ∨ a = 1 ∨ b = 1 ∨ a = b ∨ a = b ^^^ 1

instance (a b : Nat) : Decidable (trivialAnd a b) := by
  unfold trivialAnd; infer_instance

/-- Claim C3.  addAnd applies, in order, AND(x,0)=0, AND(1,x)=x, AND(x,1)=x,
AND(x,x)=x, AND(x,not x)=0 before allocating anything; a repeated call with
identical arguments returns the same literal with the graph unchanged; and
AND(x, x xor 1) returns literal 0 with no node created. -/
theorem c3_addAnd_trivial_rules_and_dedup :
    (∀ g x, addAnd g x 0 = .ok (0, g)) ∧
    (∀ g x, addAnd g 0 x = .ok (0, g)) ∧
    (∀ g x, addAnd g 1 x = .ok (x, g)) ∧
    (∀ g x, addAnd g x 1 = .ok (x, g)) ∧
    (∀ g x, addAnd g x x = .ok (x, g)) ∧
    (∀ g x, addAnd g x (x ^^^ 1) = .ok (0, g)) ∧
    (∀ g a b r g1, addAnd g a b = .ok (r, g1) → addAnd g1 a b = .ok (r, g1)) := by
  refine ⟨?_, ?_, ?_, ?_, ?_, ?_, ?_⟩
  · intro g x; simp [addAnd]
  · intro g x; simp [addAnd]
  · intro g x
    by_cases hx : x = 0
    · subst hx; simp [addAnd]
    · simp [addAnd, hx]
  · intro g x
    by_cases hx0 : x = 0
    · subst hx0; simp [addAnd]
    · by_cases hx1 : x = 1
      · subst hx1; simp [addAnd]
      · simp [addAnd, hx0, hx1]
  · intro g x
    by_cases hx0 : x = 0
    · subst hx0; simp [addAnd]
    · by_cases hx1 : x = 1
      · subst hx1; simp [addAnd]
      · simp [addAnd, hx0, hx1]
  · intro g x
    by_cases hx0 : x = 0
    · subst hx0; simp [addAnd]
    · by_cases hx1 : x = 1
      · subst hx1; simp [addAnd]
      · have hz : ¬ (x ^^^ 1 = 0) := by
          rw [xor1_eq_zero_iff]; exact hx1
        have ho : ¬ (x ^^^ 1 = 1) := by
          rw [xor1_eq_one_iff]; exact hx0
        have hne : ¬ (x = x ^^^ 1) := ne_xor1_self x
        simp [addAnd, hx0, hx1, hz, ho, hne, xor1_xor1]
  · intro g a b r g1 h
    by_cases h0 : a = 0 ∨ b = 0
    · simp only [addAnd, if_pos h0] at h ⊢
      cases h; rfl
    · by_cases h1 : a = 1
      · simp only [addAnd, if_neg h0, if_pos h1] at h ⊢
        cases h; rfl
      · by_cases h2 : b = 1
        · simp only [addAnd, if_neg h0, if_neg h1, if_pos h2] at h ⊢
          cases h; rfl
        · by_cases h3 : a = b
          · simp only [addAnd, if_neg h0, if_neg h1, if_neg h2, if_pos h3] at h ⊢
            cases h; rfl
          · by_cases h4 : a = b ^^^ 1
            · simp only [addAnd, if_neg h0, if_neg h1, if_neg h2, if_neg h3, if_pos h4] at h ⊢
              cases h; rfl
            · simp only [addAnd, if_neg h0, if_neg h1, if_neg h2, if_neg h3, if_neg h4] at h ⊢
              cases htab : tableLookup g.computed_table (normPair a b) with
              | some v =>
                rw [htab] at h
                cases h
                rw [htab]
              | none =>
                rw [htab] at h
                by_cases hrange : lit_id (normPair a b).1 ≥ g.nodes.length ∨
                    lit_id (normPair a b).2 ≥ g.nodes.length
                · rw [if_pos hrange] at h; cases h
                · rw [if_neg hrange] at h
                  cases h
                  have : tableLookup
                      ((normPair a b, make_lit g.nodes.length false) :: g.computed_table)
                      (normPair a b) = some (make_lit g.nodes.length false) := by
                    unfold tableLookup; rw [if_pos rfl]
                  rw [this]

/-- A two-input graph used as the C3 witness input. -/
def c3g : AigGraph := { aigInit with nodes := aigInit.nodes ++ [⟨0,0,true⟩, ⟨0,0,true⟩] }

/-- The C3 witness graph after the first addAnd call. -/
def c3g2 : AigGraph :=
  { c3g with nodes := c3g.nodes ++ [⟨2,4,false⟩], computed_table := [((2,4), 6)] }

/-- Witness for C3 at a concrete input: a first call allocating a gate, then a
second identical call returning the same literal with the graph unchanged. -/
theorem c3_witness :
    addAnd c3g 2 4 = .ok (6, c3g2) ∧ addAnd c3g2 2 4 = .ok (6, c3g2) :=
  ⟨by rfl, c3_addAnd_trivial_rules_and_dedup.2.2.2.2.2.2 c3g 2 4 6 c3g2 (by rfl)⟩

/-- Claim C4.  When no trivial rule applies and the normalized pair misses the
hash table, addAnd errors exactly when a fanin id is out of range, and
otherwise appends a gate with normalized min-first fanins and returns its
positive literal; addOutput errors exactly when the literal's node id does
not exist, and otherwise appends the literal leaving nodes and inputs
unchanged. -/
theorem c4_range_validation :
    (∀ g a b, ¬ trivialAnd a b →
      tableLookup g.computed_table (normPair a b) = none →
      ((lit_id a ≥ g.nodes.length ∨ lit_id b ≥ g.nodes.length →
          addAnd g a b = .error "addAnd inputs invalid") ∧
       (lit_id a < g.nodes.length → lit_id b < g.nodes.length →
          addAnd g a b = .ok (make_lit g.nodes.length false,
            { g with nodes := g.nodes ++ [⟨(normPair a b).1, (normPair a b).2, false⟩],
                     computed_table :=
                       (normPair a b, make_lit g.nodes.length false) :: g.computed_table })))) ∧
    (∀ g lit,
      (lit_id lit ≥ g.nodes.length →
          addOutput g lit = .error "addOutput: literal refers to nonexistent node") ∧
      (lit_id lit < g.nodes.length →
          addOutput g lit = .ok { g with outputs := g.outputs ++ [lit] })) := by
  constructor
  · intro g a b htriv htab
    have h0 : ¬ (a = 0 ∨ b = 0) := by
      intro h; exact htriv (h.elim (fun h => Or.inl h) (fun h => Or.inr (Or.inl h)))
    have h1 : ¬ (a = 1) := fun h => htriv (Or.inr (Or.inr (Or.inl h)))
    have h2 : ¬ (b = 1) := fun h => htriv (Or.inr (Or.inr (Or.inr (Or.inl h))))
    have h3 : ¬ (a = b) := fun h => htriv (Or.inr (Or.inr (Or.inr (Or.inr (Or.inl h)))))
    have h4 : ¬ (a = b ^^^ 1) := fun h => htriv (Or.inr (Or.inr (Or.inr (Or.inr (Or.inr h)))))
    have hperm : (lit_id (normPair a b).1 ≥ g.nodes.length ∨
        lit_id (normPair a b).2 ≥ g.nodes.length) ↔
        (lit_id a ≥ g.nodes.length ∨ lit_id b ≥ g.nodes.length) := by
      unfold normPair
      split_ifs
      · simp only [Prod.fst, Prod.snd]; exact Or.comm
      · simp only [Prod.fst, Prod.snd]
    constructor
    · intro hr
      simp only [addAnd, if_neg h0, if_neg h1, if_neg h2, if_neg h3, if_neg h4, htab]
      rw [if_pos (hperm.mpr hr)]
    · intro hra hrb
      have : ¬ (lit_id (normPair a b).1 ≥ g.nodes.length ∨
          lit_id (normPair a b).2 ≥ g.nodes.length) := by
        rw [hperm]; push_neg; exact ⟨hra, hrb⟩
      simp only [addAnd, if_neg h0, if_neg h1, if_neg h2, if_neg h3, if_neg h4, htab]
      rw [if_neg this]
  · intro g lit
    constructor
    · intro hr; simp only [addOutput, if_pos hr]
    · intro hr
      have : ¬ (lit_id lit ≥ g.nodes.length) := by omega
      simp only [addOutput, if_neg this]

/-- Witness for C4 at concrete inputs: an out-of-range addAnd on the empty
graph and a successful in-range addOutput. -/
theorem c4_witness :
    addAnd aigInit 2 4 = .error "addAnd inputs invalid" ∧
    addOutput aigInit 1 = .ok { aigInit with outputs := aigInit.outputs ++ [1] } :=
  ⟨((c4_range_validation.1 aigInit 2 4 (by decide) (by rfl)).1 (by decide)),
   ((c4_range_validation.2 aigInit 1).2 (by decide))⟩

/-- Counterexample for claim C7: literal 1 is a constant literal, yet hasAnd
returns false for the pair (1, 4) on the freshly constructed graph, so the
claimed characterization fails. -/
theorem c7_counterexample :
    ¬ ((hasAnd aigInit 1 4 = true) ↔
        (1 = 0 ∨ 1 = 1 ∨ 4 = 0 ∨ 4 = 1 ∨
         (tableLookup aigInit.computed_table (normPair 1 4)).isSome = true)) := by
  decide

/-- Claim C7 as amended: hasAnd returns true exactly when one argument is
literal 0 or the normalized pair is present in the structural-hash index. -/
theorem c7_hasAnd_characterization :
    ∀ g a b, hasAnd g a b = true ↔
      (a = 0 ∨ b = 0 ∨ (tableLookup g.computed_table (normPair a b)).isSome = true) := by
  intro g a b
  unfold hasAnd
  by_cases h : a = 0 ∨ b = 0
  · simp [h]
    tauto
  · simp [h]
    push_neg at h
    tauto

/-- A graph whose hash table contains a stale pair entry while its node arena
holds only the constant, used as the C10 witness input. -/
def c10g : AigGraph := { aigInit with computed_table := [((4, 6), 8)] }

/-- Claim C10.  Whenever a trivial rule fires or the normalized pair hits the
hash table, addAnd returns without validating its arguments: addAnd(0,L)
returns 0 and addAnd(1,L) returns L for every literal L, with no error and no
graph change, and a table hit likewise returns the recorded literal with the
graph unchanged. -/
theorem c10_addAnd_skips_validation :
    (∀ g L, addAnd g 0 L = .ok (0, g)) ∧
    (∀ g L, addAnd g 1 L = .ok (L, g)) ∧
    (∀ g a b v, ¬ trivialAnd a b →
      tableLookup g.computed_table (normPair a b) = some v →
      addAnd g a b = .ok (v, g)) := by
  refine ⟨?_, ?_, ?_⟩
  · intro g L; simp [addAnd]
  · intro g L
    by_cases hL : L = 0
    · subst hL; simp [addAnd]
    · simp [addAnd, hL]
  · intro g a b v htriv htab
    have h0 : ¬ (a = 0 ∨ b = 0) := by
      intro h; exact htriv (h.elim (fun h => Or.inl h) (fun h => Or.inr (Or.inl h)))
    have h1 : ¬ (a = 1) := fun h => htriv (Or.inr (Or.inr (Or.inl h)))
    have h2 : ¬ (b = 1) := fun h => htriv (Or.inr (Or.inr (Or.inr (Or.inl h))))
    have h3 : ¬ (a = b) := fun h => htriv (Or.inr (Or.inr (Or.inr (Or.inr (Or.inl h)))))
    have h4 : ¬ (a = b ^^^ 1) := fun h => htriv (Or.inr (Or.inr (Or.inr (Or.inr (Or.inr h)))))
    simp only [addAnd, if_neg h0, if_neg h1, if_neg h2, if_neg h3, if_neg h4, htab]

/-- Witness for C10 at concrete inputs: the literal 2000001 refers to a node
far beyond the arena, yet the constant rules return without error; a stale
hash hit on a pair of nonexistent nodes likewise returns unchecked. -/
theorem c10_witness :
    addAnd aigInit 0 2000001 = .ok (0, aigInit) ∧
    addAnd aigInit 1 2000001 = .ok (2000001, aigInit) ∧
    addAnd c10g 4 6 = .ok (8, c10g) :=
  ⟨c10_addAnd_skips_validation.1 aigInit 2000001,
   c10_addAnd_skips_validation.2.1 aigInit 2000001,
   c10_addAnd_skips_validation.2.2 c10g 4 6 8 (by decide) (by rfl)⟩

/-- The C1 circuit, built through the public construction interface:
inputs y, z, w; A = AND(y,z); G = AND(not A, y); H = AND(G, w); output H. -/
def c1Build : Except String AigGraph :=
  let r1 := addInput aigInit
  let r2 := addInput r1.2
  let r3 := addInput r2.2
  match addAnd r3.2 (make_lit r1.1 false) (make_lit r2.1 false) with
  | .error e => .error e
  | .ok (la, g4) =>
    match addAnd g4 (la ^^^ 1) (make_lit r1.1 false) with
    | .error e => .error e
    | .ok (lg, g5) =>
      match addAnd g5 lg (make_lit r3.1 false) with
      | .error e => .error e
      | .ok (lh, g6) => addOutput g6 lh

/-- Claim C1 is violated by the code: on the circuit
H = AND(AND(not AND(y,z), y), w), built through the public interface and
satisfying the data-model invariants, the output under the assignment
y=false, z=false, w=true is false before rewrite() and true after one
rewrite() call, because phase 2's redundancy rule replaces
AND(not AND(y,z), y) by not AND(y,z), ignoring the inversion bit. -/
theorem c1_rewrite_changes_function :
    c1Build.map (fun g => evalOutputs g [false, false, true]) = .ok [false] ∧
    (c1Build.bind rewrite).map (fun g => evalOutputs g [false, false, true]) = .ok [true] := by
  constructor
  · rfl
  · rfl

/-- The C2 graph, built through the public interface: inputs y, z;
A = AND(y,z) at node 3; the gate AND(2, 7) = AND(y, not A) at node 4. -/
def c2Build : Except String AigGraph :=
  let r1 := addInput aigInit
  let r2 := addInput r1.2
  match addAnd r2.2 2 4 with
  | .error e => .error e
  | .ok (la, g3) =>
    match addAnd g3 (la ^^^ 1) 2 with
    | .error e => .error e
    | .ok (_, g4) => addOutput g4 8

/-- The concrete value of the C2 graph. -/
def c2Graph : AigGraph :=
  { nodes := [⟨0,0,false⟩, ⟨0,0,true⟩, ⟨0,0,true⟩, ⟨2,4,false⟩, ⟨2,7,false⟩],
    inputs := [1, 2], outputs := [8],
    computed_table := [((2,7), 8), ((2,4), 6)] }

/-- Claim C2 is violated by the code: on gate 4 = AND(2, 7) (i.e.
AND(y, not A) with A = AND(y,z)), rewriteRedundant records the replacement
literal 7 = not A because node 3's fanin 2 equals the gate's other fanin, but
the replacement literal does not denote the same Boolean function as the
gate: at y=false, z=false the literal 7 evaluates to true while the gate
evaluates to false.  The polarity of the matched fanin is never checked. -/
theorem c2_redundant_replacement_not_equivalent :
    c2Build = .ok c2Graph ∧
    rewriteRedundant c2Graph 4 = .ok (some 7) ∧
    evalLit c2Graph [false, false] 7 = true ∧
    evalNode c2Graph [false, false] c2Graph.nodes.length 4 = false := by
  refine ⟨rfl, rfl, rfl, rfl⟩

/-- The C5 and C9 circuit, built through the public interface: inputs
a, b, c; x = AND(a,b); y = AND(a,c); g = AND(x,y); output g.  This is the
spec's own common-factor scenario. -/
def c5Build : Except String AigGraph :=
  let r1 := addInput aigInit
  let r2 := addInput r1.2
  let r3 := addInput r2.2
  match addAnd r3.2 2 4 with
  | .error e => .error e
  | .ok (lx, g4) =>
    match addAnd g4 2 6 with
    | .error e => .error e
    | .ok (ly, g5) =>
      match addAnd g5 lx ly with
      | .error e => .error e
      | .ok (lg, g6) => addOutput g6 lg

/-- Decidable form of data-model invariant 2: every AND-gate's two fanin
literals reference node ids strictly less than the gate's own id. -/
def inv2b (g : AigGraph) : Bool :=
  (List.range g.nodes.length).all fun i =>
    if i = 0 then true else
    match g.nodes.get? i with
    | none => true
    | some n => n.is_input || (decide (lit_id n.fanin0 < i) && decide (lit_id n.fanin1 < i))

/-- Counterexample for claim C5: the invariant holds on the constructed
common-factor circuit, but after rewrite_phase1 the rewritten gate 6 has
fanin0 = 16, which references the freshly allocated node 8 > 6, so the
invariant is violated right after the mutating operation rewrite_phase1. -/
theorem c5_counterexample :
    c5Build.map inv2b = .ok true ∧
    (c5Build.bind rewrite_phase1).map inv2b = .ok false := by
  exact ⟨rfl, rfl⟩

/-- Inversion of a successful gated pull: the gain/cost gate passed and the
two deduplicating addAnd calls produced the result. -/
theorem pullCF_ok_some (g : AigGraph) (refs : List Nat) (x y c a b nl : Nat)
    (g2 : AigGraph) (h : pullCF g refs x y c a b = .ok (some (nl, g2))) :
    gainOf refs x y ≥ costOf g a b ∧
    ∃ t g1, addAnd g a b = .ok (t, g1) ∧ addAnd g1 c t = .ok (nl, g2) := by
  unfold pullCF at h
  split at h
  · simp at h
  · rename_i hg
    refine ⟨by omega, ?_⟩
    split at h
    · simp at h
    · rename_i t g1 ha
      split at h
      · simp at h
      · rename_i nl2 g22 hb
        simp only [Except.ok.injEq, Option.some.injEq, Prod.mk.injEq] at h
        obtain ⟨h1, h2⟩ := h
        subst h1; subst h2
        exact ⟨t, g1, ha, hb⟩

/-- Claim C9.  Phase 1 applies the common-factor rewrite only when the gate
matches AND(AND(c,a), AND(c,b)) with a shared fanin c and the gain (number of
fanin sub-gates with reference count exactly 1) is at least the cost (1 plus
1 if AND(a,b) does not yet exist per hasAnd); on success the loop overwrites
the gate's fanins to (new_literal, 1); and rewrite_phase1 uses the reference
counts build_refs computed over all gate fanins and outputs of the phase's
initial graph. -/
theorem c9_phase1_gain_cost_gate :
    (∀ g refs id nl g2, rewriteCommonFactor_P1 g refs id = .ok (some (nl, g2)) →
      ∃ nd nx ny c a b,
        g.nodes.get? id = some nd ∧ nd.is_input = false ∧
        g.nodes.get? (lit_id nd.fanin0) = some nx ∧
        g.nodes.get? (lit_id nd.fanin1) = some ny ∧
        nx.is_input = false ∧ ny.is_input = false ∧
        ((c = nx.fanin0 ∧ a = nx.fanin1) ∨ (c = nx.fanin1 ∧ a = nx.fanin0)) ∧
        ((c = ny.fanin0 ∧ b = ny.fanin1) ∨ (c = ny.fanin1 ∧ b = ny.fanin0)) ∧
        gainOf refs nd.fanin0 nd.fanin1 ≥ costOf g a b ∧
        ∃ t g1, addAnd g a b = .ok (t, g1) ∧ addAnd g1 c t = .ok (nl, g2)) ∧
    (∀ refs g id nl g2, rewriteCommonFactor_P1 g refs id = .ok (some (nl, g2)) →
        phase1Step refs g id = .ok { g2 with nodes := setFanins g2.nodes id nl }) ∧
    (∀ g, rewrite_phase1 g =
        (List.range' 1 (g.nodes.length - 1)).foldlM (phase1Step (build_refs g)) g) := by
  have main : ∀ g refs id nl (g2 : AigGraph),
      rewriteCommonFactor_P1 g refs id = .ok (some (nl, g2)) →
      ∃ nd nx ny c a b,
        g.nodes.get? id = some nd ∧ nd.is_input = false ∧
        g.nodes.get? (lit_id nd.fanin0) = some nx ∧
        g.nodes.get? (lit_id nd.fanin1) = some ny ∧
        nx.is_input = false ∧ ny.is_input = false ∧
        ((c = nx.fanin0 ∧ a = nx.fanin1) ∨ (c = nx.fanin1 ∧ a = nx.fanin0)) ∧
        ((c = ny.fanin0 ∧ b = ny.fanin1) ∨ (c = ny.fanin1 ∧ b = ny.fanin0)) ∧
        gainOf refs nd.fanin0 nd.fanin1 ≥ costOf g a b ∧
        ∃ t g1, addAnd g a b = .ok (t, g1) ∧ addAnd g1 c t = .ok (nl, g2) := by
    intro g refs id nl g2 h
    unfold rewriteCommonFactor_P1 at h
    split at h
    · simp at h
    · rename_i nd hnd
      split at h
      · simp at h
      · rename_i hin
        dsimp only at h
        split at h
        · rename_i nx ny hnx hny
          split at h
          · simp at h
          · rename_i hio
            push_neg at hio
            obtain ⟨hix, hiy⟩ := hio
            have hin0 : nd.is_input = false := Bool.not_eq_true _ ▸ hin
            have hix0 : nx.is_input = false := Bool.not_eq_true _ ▸ hix
            have hiy0 : ny.is_input = false := Bool.not_eq_true _ ▸ hiy
            split at h
            · rename_i e1
              obtain ⟨hge, hrest⟩ := pullCF_ok_some _ _ _ _ _ _ _ _ _ h
              exact ⟨nd, nx, ny, nx.fanin0, nx.fanin1, ny.fanin1, hnd, hin0,
                hnx, hny, hix0, hiy0, Or.inl ⟨rfl, rfl⟩, Or.inl ⟨e1, rfl⟩, hge, hrest⟩
            · split at h
              · rename_i e2
                obtain ⟨hge, hrest⟩ := pullCF_ok_some _ _ _ _ _ _ _ _ _ h
                exact ⟨nd, nx, ny, nx.fanin0, nx.fanin1, ny.fanin0, hnd, hin0,
                  hnx, hny, hix0, hiy0, Or.inl ⟨rfl, rfl⟩, Or.inr ⟨e2, rfl⟩, hge, hrest⟩
              · split at h
                · rename_i e3
                  obtain ⟨hge, hrest⟩ := pullCF_ok_some _ _ _ _ _ _ _ _ _ h
                  exact ⟨nd, nx, ny, nx.fanin1, nx.fanin0, ny.fanin1, hnd, hin0,
                    hnx, hny, hix0, hiy0, Or.inr ⟨rfl, rfl⟩, Or.inl ⟨e3, rfl⟩, hge, hrest⟩
                · split at h
                  · rename_i e4
                    obtain ⟨hge, hrest⟩ := pullCF_ok_some _ _ _ _ _ _ _ _ _ h
                    exact ⟨nd, nx, ny, nx.fanin1, nx.fanin0, ny.fanin0, hnd, hin0,
                      hnx, hny, hix0, hiy0, Or.inr ⟨rfl, rfl⟩, Or.inr ⟨e4, rfl⟩, hge, hrest⟩
                  · simp at h
        · simp at h
  refine ⟨main, ?_, ?_⟩
  · intro refs g id nl g2 h
    obtain ⟨nd, _, _, _, _, _, hnd, hin0, _⟩ := main g refs id nl g2 h
    unfold phase1Step
    split
    · rename_i hnone
      rw [hnd] at hnone; cases hnone
    · rename_i n hsome
      rw [hnd] at hsome
      injection hsome with hne
      subst hne
      rw [hin0, if_neg Bool.false_ne_true, h]
  · intro g; rfl

/-- The concrete value of the C5/C9 circuit graph. -/
def c5Graph : AigGraph :=
  { nodes := [⟨0,0,false⟩, ⟨0,0,true⟩, ⟨0,0,true⟩, ⟨0,0,true⟩,
              ⟨2,4,false⟩, ⟨2,6,false⟩, ⟨8,10,false⟩],
    inputs := [1,2,3], outputs := [12],
    computed_table := [((8,10),12),((2,6),10),((2,4),8)] }

/-- The graph returned by the successful common-factor rewrite of gate 6 of
c5Graph, before the loop overwrites the gate's fanins. -/
def c9g2 : AigGraph :=
  { nodes := c5Graph.nodes ++ [⟨4,6,false⟩, ⟨2,14,false⟩],
    inputs := [1,2,3], outputs := [12],
    computed_table := [((2,14),16),((4,6),14),((8,10),12),((2,6),10),((2,4),8)] }

/-- Witness for C9, applying the characterization to the concrete
common-factor circuit at gate 6, where the rewrite fires. -/
theorem c9_witness :
    ∃ nd nx ny c a b,
      c5Graph.nodes.get? 6 = some nd ∧ nd.is_input = false ∧
      c5Graph.nodes.get? (lit_id nd.fanin0) = some nx ∧
      c5Graph.nodes.get? (lit_id nd.fanin1) = some ny ∧
      nx.is_input = false ∧ ny.is_input = false ∧
      ((c = nx.fanin0 ∧ a = nx.fanin1) ∨ (c = nx.fanin1 ∧ a = nx.fanin0)) ∧
      ((c = ny.fanin0 ∧ b = ny.fanin1) ∨ (c = ny.fanin1 ∧ b = ny.fanin0)) ∧
      gainOf (build_refs c5Graph) nd.fanin0 nd.fanin1 ≥ costOf c5Graph a b ∧
      ∃ t g1, addAnd c5Graph a b = .ok (t, g1) ∧ addAnd g1 c t = .ok (16, c9g2) :=
  c9_phase1_gain_cost_gate.1 c5Graph (build_refs c5Graph) 6 16 c9g2 (by rfl)

/-! Arithmetic facts about the literal encoding. -/

theorem two_mul_xor_one (k : Nat) : 2 * k ^^^ 1 = 2 * k + 1 := by
  apply Nat.eq_of_testBit_eq
  intro i
  rw [Nat.testBit_xor]
  cases i with
  | zero =>
    rw [Nat.testBit_zero, Nat.testBit_zero, Nat.testBit_zero]
    have h1 : 2 * k % 2 = 0 := Nat.mul_mod_right 2 k
    have h2 : (2 * k + 1) % 2 = 1 := by omega
    rw [h1, h2]
    simp
  | succ i =>
    rw [Nat.testBit_succ, Nat.testBit_succ, Nat.testBit_succ]
    have h1 : 2 * k / 2 = k := by omega
    have h2 : (2 * k + 1) / 2 = k := by omega
    have h3 : (1 : Nat) / 2 = 0 := by norm_num
    rw [h1, h2, h3, Nat.zero_testBit, Bool.xor_false]

theorem lit_id_make (k : Nat) (b : Bool) : lit_id (make_lit k b) = k := by
  cases b <;> simp [lit_id, make_lit] <;> omega

theorem lit_inv_make (k : Nat) (b : Bool) : lit_inv (make_lit k b) = b := by
  cases b <;> simp [lit_inv, make_lit] <;> omega

theorem lit_decomp (l : Nat) : l = make_lit (lit_id l) (lit_inv l) := by
  by_cases h : l % 2 = 1 <;> simp [make_lit, lit_id, lit_inv, h] <;> omega

theorem lit_id_xor1 (l : Nat) : lit_id (l ^^^ 1) = lit_id l := by
  rcases Nat.even_or_odd l with ⟨k, hk⟩ | ⟨k, hk⟩
  · have hl : l = 2 * k := by omega
    subst hl
    rw [two_mul_xor_one]
    unfold lit_id; omega
  · have hl : l = 2 * k + 1 := by omega
    subst hl
    rw [← two_mul_xor_one, xor1_xor1, two_mul_xor_one]
    unfold lit_id; omega

theorem lit_inv_xor1 (l : Nat) : lit_inv (l ^^^ 1) = ! lit_inv l := by
  rcases Nat.even_or_odd l with ⟨k, hk⟩ | ⟨k, hk⟩
  · have hl : l = 2 * k := by omega
    subst hl
    rw [two_mul_xor_one]
    simp [lit_inv]
    omega
  · have hl : l = 2 * k + 1 := by omega
    subst hl
    rw [← two_mul_xor_one, xor1_xor1, two_mul_xor_one]
    simp [lit_inv]
    omega

theorem lit_id_litFlip (l : Nat) (b : Bool) : lit_id (litFlip l b) = lit_id l := by
  cases b <;> simp [litFlip, lit_id_xor1]

theorem lit_inv_litFlip (l : Nat) (b : Bool) : lit_inv (litFlip l b) = (lit_inv l).xor b := by
  cases b <;> simp [litFlip, lit_inv_xor1]

theorem litFlip_make_false (k : Nat) (b : Bool) : litFlip (make_lit k false) b = make_lit k b := by
  cases b <;> simp [litFlip, make_lit, two_mul_xor_one]

/-! List access helpers. -/

theorem getD_append_sing {α : Type} (l : List α) (a : α) (d : α) :
    (l ++ [a]).getD l.length d = a := by
  rw [List.getD_append_right _ _ _ _ (le_refl _), Nat.sub_self]
  rfl

theorem getD_set_eq {α : Type} (l : List α) (i : Nat) (v d : α) (h : i < l.length) :
    (l.set i v).getD i d = v := by
  rw [List.getD_eq_getElem?_getD, List.getElem?_set, if_pos rfl, if_pos h]
  rfl

theorem getD_set_ne {α : Type} (l : List α) (i j : Nat) (v d : α) (h : i ≠ j) :
    (l.set i v).getD j d = l.getD j d := by
  rw [List.getD_eq_getElem?_getD, List.getElem?_set, if_neg h, ← List.getD_eq_getElem?_getD]

theorem getD_replicate {α : Type} (n j : Nat) (a d : α) :
    (List.replicate n a).getD j d = if j < n then a else d := by
  rw [List.getD_eq_getElem?_getD, List.getElem?_replicate]
  split_ifs <;> rfl

theorem tableLookup_cons (e : (Nat × Nat) × Nat) (t : List ((Nat × Nat) × Nat)) (k : Nat × Nat) :
    tableLookup (e :: t) k = if e.1 = k then some e.2 else tableLookup t k := rfl

/-! The range invariant carried through optimize's rebuild. -/

/-- The resolver's recorded new literal for an old node id, none when the C++
entry is still UINT32_MAX. -/
def mapval (st : OptState) (i : Nat) : Option Nat := st.old2new.getD i none

/-- Data-model invariant 2 as a predicate on a node arena: every non-input
node other than the constant has both fanin ids strictly below its own id. -/
def faninsLt (nodes : List AigNode) : Prop :=
  ∀ j, j < nodes.length → j ≠ 0 →
    ∀ n, nodes.get? j = some n → n.is_input = false →
      lit_id n.fanin0 < j ∧ lit_id n.fanin1 < j

/-- Well-rangedness of a rebuild state: nodes respect invariant 2, and every
recorded literal (map or strash) points into the new arena. -/
def stInv (st : OptState) : Prop :=
  faninsLt st.new_nodes ∧
  (∀ i v, mapval st i = some v → lit_id v < st.new_nodes.length) ∧
  (∀ k v, tableLookup st.strash k = some v → lit_id v < st.new_nodes.length)

/-- strashStep preserves the range invariant, appends at most one node, does
not touch the old-to-new map, and returns an in-range literal. -/
theorem strashStep_range (st : OptState) (l0 l1 : Nat) (hinv : stInv st)
    (h0 : lit_id l0 < st.new_nodes.length) (h1 : lit_id l1 < st.new_nodes.length) :
    stInv (strashStep st l0 l1).1 ∧
    lit_id (strashStep st l0 l1).2 < (strashStep st l0 l1).1.new_nodes.length ∧
    (∃ tail, (strashStep st l0 l1).1.new_nodes = st.new_nodes ++ tail) ∧
    (strashStep st l0 l1).1.old2new = st.old2new := by
  have hpos : 0 < st.new_nodes.length := Nat.lt_of_le_of_lt (Nat.zero_le _) h0
  unfold strashStep
  split
  · exact ⟨hinv, by simpa [lit_id] using hpos, ⟨[], by simp⟩, rfl⟩
  · split
    · exact ⟨hinv, h1, ⟨[], by simp⟩, rfl⟩
    · split
      · exact ⟨hinv, h0, ⟨[], by simp⟩, rfl⟩
      · split
        · exact ⟨hinv, h0, ⟨[], by simp⟩, rfl⟩
        · split
          · exact ⟨hinv, by simpa [lit_id] using hpos, ⟨[], by simp⟩, rfl⟩
          · dsimp only
            split
            · rename_i r hr
              exact ⟨hinv, hinv.2.2 _ _ hr, ⟨[], by simp⟩, rfl⟩
            · rename_i hmiss
              obtain ⟨hlt, hmap, hstr⟩ := hinv
              have hp1 : lit_id (normPair l0 l1).1 < st.new_nodes.length := by
                unfold normPair; split <;> assumption
              have hp2 : lit_id (normPair l0 l1).2 < st.new_nodes.length := by
                unfold normPair; split <;> assumption
              refine ⟨⟨?_, ?_, ?_⟩, ?_, ⟨_, rfl⟩, rfl⟩
              · intro j hj hj0 n hn hni
                dsimp only at hn
                rw [List.length_append, List.length_singleton] at hj
                rw [List.get?_eq_getElem?, List.getElem?_append] at hn
                by_cases hjl : j < st.new_nodes.length
                · rw [if_pos hjl, ← List.get?_eq_getElem?] at hn
                  exact hlt j hjl hj0 n hn hni
                · have hje : j = st.new_nodes.length := by omega
                  subst hje
                  rw [if_neg (by omega), Nat.sub_self] at hn
                  simp at hn
                  subst hn
                  exact ⟨by simpa using hp1, by simpa using hp2⟩
              · intro i v hv
                rw [List.length_append, List.length_singleton]
                have := hmap i v hv
                omega
              · intro k v hv
                rw [tableLookup_cons] at hv
                rw [List.length_append, List.length_singleton]
                split at hv
                · simp at hv
                  subst hv
                  simp [lit_id_make]
                · have := hstr k v hv
                  omega
              · simp [lit_id_make]

theorem getD_set_full {α : Type} (l : List α) (i j : Nat) (v d : α) :
    (l.set i v).getD j d = if i = j ∧ i < l.length then v else l.getD j d := by
  by_cases hij : i = j
  · subst hij
    by_cases hl : i < l.length
    · rw [getD_set_eq _ _ _ _ hl, if_pos ⟨rfl, hl⟩]
    · rw [if_neg (fun hc => hl hc.2), List.set_eq_of_length_le (by omega)]
  · rw [getD_set_ne _ _ _ _ _ hij, if_neg (fun hc => hij hc.1)]

/-- strashStep appends to the arena and the strash table and leaves the
old-to-new map untouched. -/
theorem strashStep_mono (st : OptState) (l0 l1 : Nat) :
    (∃ tail, (strashStep st l0 l1).1.new_nodes = st.new_nodes ++ tail) ∧
    (strashStep st l0 l1).1.old2new = st.old2new := by
  unfold strashStep
  split
  · exact ⟨⟨[], by simp⟩, rfl⟩
  · split
    · exact ⟨⟨[], by simp⟩, rfl⟩
    · split
      · exact ⟨⟨[], by simp⟩, rfl⟩
      · split
        · exact ⟨⟨[], by simp⟩, rfl⟩
        · split
          · exact ⟨⟨[], by simp⟩, rfl⟩
          · dsimp only
            split
            · exact ⟨⟨[], by simp⟩, rfl⟩
            · exact ⟨⟨_, rfl⟩, rfl⟩

/-- The resolver only appends to the arena, keeps the map's length, and
preserves every recorded map entry. -/
theorem get_new_lit_mono (g : AigGraph) :
    ∀ fuel st L st' r, get_new_lit g fuel st L = .ok (st', r) →
      (∃ tail, st'.new_nodes = st.new_nodes ++ tail) ∧
      st'.old2new.length = st.old2new.length ∧
      (∀ i v, mapval st i = some v → mapval st' i = some v) := by
  intro fuel
  induction fuel with
  | zero => intro st L st' r h; simp [get_new_lit] at h
  | succ fuel ih =>
    intro st L st' r h
    simp only [get_new_lit] at h
    split at h
    · simp only [Except.ok.injEq, Prod.mk.injEq] at h
      obtain ⟨h1, h2⟩ := h
      subst h1
      exact ⟨⟨[], by simp⟩, rfl, fun i v hv => hv⟩
    · rename_i hnone
      split at h
      · simp at h
      · split at h
        · simp at h
        · split at h
          · simp at h
          · rename_i st1 l0 ha
            split at h
            · simp at h
            · rename_i st2 l1 hb
              obtain ⟨⟨t1, ht1⟩, m2, m3⟩ := ih st _ st1 l0 ha
              obtain ⟨⟨t2, ht2⟩, m2', m3'⟩ := ih st1 _ st2 l1 hb
              obtain ⟨⟨t3, ht3⟩, hss⟩ := strashStep_mono st2 l0 l1
              simp only [Except.ok.injEq, Prod.mk.injEq] at h
              obtain ⟨h1, h2⟩ := h
              subst h1
              refine ⟨⟨t1 ++ t2 ++ t3, by simp [ht3, ht2, ht1]⟩, ?_, ?_⟩
              · simp only [List.length_set, hss, m2', m2]
              · intro i v hv
                have hv2 : mapval st2 i = some v := m3' i v (m3 i v hv)
                unfold mapval
                dsimp only
                rw [hss, getD_set_full]
                split
                · rename_i hc
                  exfalso
                  have hx := hv
                  unfold mapval at hx
                  rw [← hc.1] at hx
                  rw [hnone] at hx
                  cases hx
                · exact hv2

/-- The resolver preserves the range invariant and returns a literal pointing
into the resulting arena. -/
theorem get_new_lit_inv (g : AigGraph) :
    ∀ fuel st L st' r, stInv st → get_new_lit g fuel st L = .ok (st', r) →
      stInv st' ∧ lit_id r < st'.new_nodes.length := by
  intro fuel
  induction fuel with
  | zero => intro st L st' r _ h; simp [get_new_lit] at h
  | succ fuel ih =>
    intro st L st' r hinv h
    simp only [get_new_lit] at h
    split at h
    · rename_i res hres
      simp only [Except.ok.injEq, Prod.mk.injEq] at h
      obtain ⟨h1, h2⟩ := h
      subst h1
      subst h2
      refine ⟨hinv, ?_⟩
      rw [lit_id_litFlip]
      exact hinv.2.1 _ _ hres
    · rename_i hnone
      split at h
      · simp at h
      · split at h
        · simp at h
        · split at h
          · simp at h
          · rename_i st1 l0 ha
            split at h
            · simp at h
            · rename_i st2 l1 hb
              obtain ⟨hinv1, hl0⟩ := ih st _ st1 l0 hinv ha
              obtain ⟨hinv2, hl1⟩ := ih st1 _ st2 l1 hinv1 hb
              obtain ⟨⟨t2, ht2⟩, _, _⟩ := get_new_lit_mono g fuel st1 _ st2 l1 hb
              have hl0' : lit_id l0 < st2.new_nodes.length := by
                rw [ht2, List.length_append]; omega
              obtain ⟨hinvs, hrs, ⟨t3, ht3⟩, hss⟩ := strashStep_range st2 l0 l1 hinv2 hl0' hl1
              simp only [Except.ok.injEq, Prod.mk.injEq] at h
              obtain ⟨h1, h2⟩ := h
              subst h1
              subst h2
              constructor
              · refine ⟨hinvs.1, ?_, ?_⟩
                · intro i v hv
                  unfold mapval at hv
                  dsimp only at hv
                  rw [hss, getD_set_full] at hv
                  split at hv
                  · rename_i hc
                    simp only [Option.some.injEq] at hv
                    subst hv
                    exact hrs
                  · have := hinvs.2.1 i v
                    unfold mapval at this
                    rw [hss] at this
                    exact this hv
                · intro k v hv
                  exact hinvs.2.2 k v hv
              · rw [lit_id_litFlip]
                exact hrs

/-- Structure of the input-seeding fold: it appends one fresh input node per
primary input, records the fresh ids in order, and leaves the map length and
the strash table unchanged. -/
theorem seedFold_facts :
    ∀ (L : List Nat) (p : OptState × List Nat),
      (List.foldl seedStep p L).1.new_nodes
        = p.1.new_nodes ++ List.replicate L.length ⟨0, 0, true⟩ ∧
      (List.foldl seedStep p L).2
        = p.2 ++ List.range' p.1.new_nodes.length L.length ∧
      (List.foldl seedStep p L).1.old2new.length = p.1.old2new.length ∧
      (List.foldl seedStep p L).1.strash = p.1.strash := by
  intro L
  induction L with
  | nil => intro p; simp
  | cons x L ih =>
    intro p
    rw [List.foldl_cons]
    obtain ⟨f1, f2, f3, f4⟩ := ih (seedStep p x)
    have e1 : (seedStep p x).1.new_nodes = p.1.new_nodes ++ [⟨0, 0, true⟩] := rfl
    have e2 : (seedStep p x).2 = p.2 ++ [p.1.new_nodes.length] := rfl
    have e3 : (seedStep p x).1.old2new.length = p.1.old2new.length := by
      show (p.1.old2new.set x (some (make_lit p.1.new_nodes.length false))).length
          = p.1.old2new.length
      rw [List.length_set]
    have e4 : (seedStep p x).1.strash = p.1.strash := rfl
    refine ⟨?_, ?_, ?_, ?_⟩
    · rw [f1, e1, List.length_cons, List.replicate_succ, List.append_assoc]
      rfl
    · rw [f2, e2, e1, List.length_cons, List.length_append, List.length_singleton,
        List.range'_succ, List.append_assoc]
      rfl
    · rw [f3, e3]
    · rw [f4, e4]

/-- Appending a node that is either an input or has in-range fanins preserves
invariant 2. -/
theorem faninsLt_append (ns : List AigNode) (a : AigNode) (hf : faninsLt ns)
    (ha : a.is_input = false → lit_id a.fanin0 < ns.length ∧ lit_id a.fanin1 < ns.length) :
    faninsLt (ns ++ [a]) := by
  intro j hj hj0 n hn hni
  rw [List.length_append, List.length_singleton] at hj
  rw [List.get?_eq_getElem?, List.getElem?_append] at hn
  by_cases hjl : j < ns.length
  · rw [if_pos hjl, ← List.get?_eq_getElem?] at hn
    exact hf j hjl hj0 n hn hni
  · have hje : j = ns.length := by omega
    subst hje
    rw [if_neg (by omega), Nat.sub_self] at hn
    simp at hn
    subst hn
    exact ha hni

/-- The input-seeding fold preserves the range invariant. -/
theorem seedFold_inv :
    ∀ (L : List Nat) (p : OptState × List Nat), stInv p.1 →
      stInv (List.foldl seedStep p L).1 := by
  intro L
  induction L with
  | nil => intro p hp; simpa using hp
  | cons x L ih =>
    intro p hp
    rw [List.foldl_cons]
    apply ih
    obtain ⟨hlt, hmap, hstr⟩ := hp
    have e1 : (seedStep p x).1.new_nodes = p.1.new_nodes ++ [⟨0, 0, true⟩] := rfl
    refine ⟨?_, ?_, ?_⟩
    · rw [e1]
      exact faninsLt_append _ _ hlt (fun hni => by cases hni)
    · intro i v hv
      rw [e1, List.length_append, List.length_singleton]
      have hv2 : (p.1.old2new.set x (some (make_lit p.1.new_nodes.length false))).getD i none
          = some v := hv
      rw [getD_set_full] at hv2
      split at hv2
      · simp at hv2
        subst hv2
        rw [lit_id_make]
        omega
      · have := hmap i v hv2
        omega
    · intro k v hv
      rw [e1, List.length_append, List.length_singleton]
      have := hstr k v hv
      omega

/-- Ids outside the seeded list keep their map entry through the fold. -/
theorem seedFold_mapval_notmem :
    ∀ (L : List Nat) (p : OptState × List Nat) (i : Nat), i ∉ L →
      mapval (List.foldl seedStep p L).1 i = mapval p.1 i := by
  intro L
  induction L with
  | nil => intro p i _; rfl
  | cons x L ih =>
    intro p i hi
    rw [List.mem_cons] at hi
    push_neg at hi
    rw [List.foldl_cons, ih _ _ hi.2]
    show (p.1.old2new.set x (some (make_lit p.1.new_nodes.length false))).getD i none
        = mapval p.1 i
    rw [getD_set_full, if_neg (fun hc => hi.1 hc.1.symm)]
    rfl

/-- With distinct in-range input ids, the q-th seeded input is mapped to the
literal of the fresh node allocated at offset q. -/
theorem seedFold_mapval :
    ∀ (L : List Nat) (p : OptState × List Nat), L.Nodup →
      (∀ i, i ∈ L → i < p.1.old2new.length) →
      ∀ q, q < L.length →
        mapval (List.foldl seedStep p L).1 (L.getD q 0)
          = some (make_lit (p.1.new_nodes.length + q) false) := by
  intro L
  induction L with
  | nil => intro p _ _ q hq; cases hq
  | cons x L ih =>
    intro p hnd hrange q hq
    rw [List.nodup_cons] at hnd
    rw [List.foldl_cons]
    have e1 : (seedStep p x).1.new_nodes.length = p.1.new_nodes.length + 1 := by
      have : (seedStep p x).1.new_nodes = p.1.new_nodes ++ [(⟨0, 0, true⟩ : AigNode)] := rfl
      rw [this, List.length_append, List.length_singleton]
    have e3 : (seedStep p x).1.old2new.length = p.1.old2new.length := by
      have : (seedStep p x).1.old2new
          = p.1.old2new.set x (some (make_lit p.1.new_nodes.length false)) := rfl
      rw [this, List.length_set]
    cases q with
    | zero =>
      rw [List.getD_cons_zero, seedFold_mapval_notmem L _ x hnd.1]
      have hx : x < p.1.old2new.length := hrange x (List.mem_cons_self x L)
      show (p.1.old2new.set x (some (make_lit p.1.new_nodes.length false))).getD x none
          = some (make_lit (p.1.new_nodes.length + 0) false)
      rw [getD_set_full, if_pos ⟨rfl, hx⟩, Nat.add_zero]
    | succ q =>
      rw [List.getD_cons_succ]
      have hr2 : ∀ i, i ∈ L → i < (seedStep p x).1.old2new.length := by
        intro i hi
        rw [e3]
        exact hrange i (List.mem_cons_of_mem x hi)
      have := ih (seedStep p x) hnd.2 hr2 q (by simpa using hq)
      rw [this, e1]
      have harith : p.1.new_nodes.length + 1 + q = p.1.new_nodes.length + (q + 1) := by omega
      rw [harith]

/-- Output resolution preserves the range invariant, only appends nodes, and
returns in-range output literals. -/
theorem resolveOutputs_inv (g : AigGraph) (fuel : Nat) :
    ∀ outs st st' rs, stInv st → resolveOutputs g fuel outs st = .ok (st', rs) →
      stInv st' ∧ (∃ tail, st'.new_nodes = st.new_nodes ++ tail) ∧
      (∀ r, r ∈ rs → lit_id r < st'.new_nodes.length) := by
  intro outs
  induction outs with
  | nil =>
    intro st st' rs hinv h
    simp only [resolveOutputs, Except.ok.injEq, Prod.mk.injEq] at h
    obtain ⟨h1, h2⟩ := h
    subst h1; subst h2
    exact ⟨hinv, ⟨[], by simp⟩, fun r hr => by cases hr⟩
  | cons o rest ih =>
    intro st st' rs hinv h
    simp only [resolveOutputs] at h
    split at h
    · simp at h
    · rename_i st1 r1 ha
      split at h
      · simp at h
      · rename_i st2 rs2 hb
        simp only [Except.ok.injEq, Prod.mk.injEq] at h
        obtain ⟨h1, h2⟩ := h
        subst h1; subst h2
        obtain ⟨hinv1, hr1⟩ := get_new_lit_inv g fuel st o st1 r1 hinv ha
        obtain ⟨⟨t1, ht1⟩, _, _⟩ := get_new_lit_mono g fuel st o st1 r1 ha
        obtain ⟨hinv2, ⟨t2, ht2⟩, hrs⟩ := ih st1 st2 rs2 hinv1 hb
        refine ⟨hinv2, ⟨t1 ++ t2, by rw [ht2, ht1, List.append_assoc]⟩, ?_⟩
        intro r hr
        rw [List.mem_cons] at hr
        rcases hr with hr | hr
        · subst hr
          rw [ht2, List.length_append]
          omega
        · exact hrs r hr

/-- Shape of a successful optimize call: the node arena is nonempty, the
outputs all resolve, and the result graph is assembled from the final rebuild
state. -/
theorem optimize_ok_elim (g g' : AigGraph) (h : optimize g = .ok g') :
    ∃ n0 rest st2 new_outputs,
      g.nodes = n0 :: rest ∧
      resolveOutputs g (g.nodes.length + 1) g.outputs
        (seedInputs g (initOptState g n0)).1 = .ok (st2, new_outputs) ∧
      g' = { nodes := st2.new_nodes, inputs := (seedInputs g (initOptState g n0)).2,
             outputs := new_outputs, computed_table := st2.strash } := by
  unfold optimize at h
  split at h
  · cases h
  · rename_i n0 rest hn
    dsimp only at h
    split at h
    · cases h
    · rename_i st2 new_outputs hres
      simp only [Except.ok.injEq] at h
      exact ⟨n0, rest, st2, new_outputs, hn, hres, h.symm⟩

/-- The initial rebuild state satisfies the range invariant. -/
theorem initOptState_inv (g : AigGraph) (n0 : AigNode) : stInv (initOptState g n0) := by
  refine ⟨?_, ?_, ?_⟩
  · intro j hj hj0 n hn hni
    simp only [initOptState, List.length_singleton] at hj
    omega
  · intro i v hv
    unfold mapval initOptState at hv
    dsimp only at hv
    rw [getD_set_full] at hv
    split at hv
    · simp at hv
      subst hv
      simp [initOptState, lit_id]
    · rw [getD_replicate] at hv
      split at hv <;> cases hv
  · intro k v hv
    cases hv

/-- inv2b decides precisely the faninsLt predicate. -/
theorem inv2b_iff (g : AigGraph) : inv2b g = true ↔ faninsLt g.nodes := by
  unfold inv2b faninsLt
  rw [List.all_eq_true]
  constructor
  · intro hall j hj hj0 n hn hni
    have hthis := hall j (List.mem_range.mpr hj)
    rw [if_neg hj0] at hthis
    rw [hn] at hthis
    simp only [hni] at hthis
    simp at hthis
    exact hthis
  · intro hf i hi
    rw [List.mem_range] at hi
    by_cases hi0 : i = 0
    · rw [if_pos hi0]
    · rw [if_neg hi0]
      cases hn : g.nodes.get? i with
      | none => rfl
      | some n =>
        cases hni : n.is_input with
        | true => simp [hni]
        | false =>
          obtain ⟨h1, h2⟩ := hf i hi hi0 n hn hni
          simp [hni, h1, h2]

/-- A successful addAnd either leaves the graph unchanged or appends exactly
one gate with the normalized fanin pair, both ids in range. -/
theorem addAnd_ok_cases (g : AigGraph) (a b r : Nat) (g' : AigGraph)
    (h : addAnd g a b = .ok (r, g')) :
    g' = g ∨
    (lit_id (normPair a b).1 < g.nodes.length ∧ lit_id (normPair a b).2 < g.nodes.length ∧
      g' = { g with nodes := g.nodes ++ [⟨(normPair a b).1, (normPair a b).2, false⟩],
                    computed_table :=
                      (normPair a b, make_lit g.nodes.length false) :: g.computed_table }) := by
  unfold addAnd at h
  split at h
  · simp at h; exact Or.inl h.2.symm
  · split at h
    · simp at h; exact Or.inl h.2.symm
    · split at h
      · simp at h; exact Or.inl h.2.symm
      · split at h
        · simp at h; exact Or.inl h.2.symm
        · split at h
          · simp at h; exact Or.inl h.2.symm
          · dsimp only at h
            split at h
            · simp at h; exact Or.inl h.2.symm
            · split at h
              · cases h
              · rename_i hrange
                push_neg at hrange
                simp only [Except.ok.injEq, Prod.mk.injEq] at h
                exact Or.inr ⟨hrange.1, hrange.2, h.2.symm⟩

/-- optimize establishes invariant 2 on its result unconditionally. -/
theorem optimize_faninsLt (g g' : AigGraph) (h : optimize g = .ok g') :
    faninsLt g'.nodes := by
  obtain ⟨n0, rest, st2, new_outputs, hn, hres, hg'⟩ := optimize_ok_elim g g' h
  have hseed : stInv (seedInputs g (initOptState g n0)).1 :=
    seedFold_inv g.inputs (initOptState g n0, []) (initOptState_inv g n0)
  obtain ⟨hinv2, _, _⟩ := resolveOutputs_inv g (g.nodes.length + 1) g.outputs
    (seedInputs g (initOptState g n0)).1 st2 new_outputs hseed hres
  rw [hg']
  exact hinv2.1

/-- addAnd changes neither the input list nor the output list. -/
theorem addAnd_frame (g : AigGraph) (a b r : Nat) (g' : AigGraph)
    (h : addAnd g a b = .ok (r, g')) : g'.inputs = g.inputs ∧ g'.outputs = g.outputs := by
  rcases addAnd_ok_cases g a b r g' h with hg | ⟨_, _, hg⟩ <;> rw [hg] <;> exact ⟨rfl, rfl⟩

/-- A successful common-factor rewrite is produced by the two addAnd calls of
some pull invocation. -/
theorem rcf_ok_pull (g : AigGraph) (refs : List Nat) (id nl : Nat) (g2 : AigGraph)
    (h : rewriteCommonFactor_P1 g refs id = .ok (some (nl, g2))) :
    ∃ x y c a b, pullCF g refs x y c a b = .ok (some (nl, g2)) := by
  unfold rewriteCommonFactor_P1 at h
  split at h
  · simp at h
  · split at h
    · simp at h
    · dsimp only at h
      split at h
      · split at h
        · simp at h
        · split at h
          · exact ⟨_, _, _, _, _, h⟩
          · split at h
            · exact ⟨_, _, _, _, _, h⟩
            · split at h
              · exact ⟨_, _, _, _, _, h⟩
              · split at h
                · exact ⟨_, _, _, _, _, h⟩
                · simp at h
      · simp at h

/-- The common-factor rewrite changes neither inputs nor outputs. -/
theorem rcf_frame (g : AigGraph) (refs : List Nat) (id nl : Nat) (g2 : AigGraph)
    (h : rewriteCommonFactor_P1 g refs id = .ok (some (nl, g2))) :
    g2.inputs = g.inputs ∧ g2.outputs = g.outputs := by
  obtain ⟨x, y, c, a, b, hp⟩ := rcf_ok_pull g refs id nl g2 h
  obtain ⟨_, t, g1, ha, hb⟩ := pullCF_ok_some g refs x y c a b nl g2 hp
  obtain ⟨h1, h2⟩ := addAnd_frame g a b t g1 ha
  obtain ⟨h3, h4⟩ := addAnd_frame g1 c t nl g2 hb
  exact ⟨h3.trans h1, h4.trans h2⟩

/-- One phase-1 step changes neither inputs nor outputs. -/
theorem phase1Step_frame (refs : List Nat) (g : AigGraph) (id : Nat) (g' : AigGraph)
    (h : phase1Step refs g id = .ok g') : g'.inputs = g.inputs ∧ g'.outputs = g.outputs := by
  unfold phase1Step at h
  split at h
  · simp at h; rw [← h]; exact ⟨rfl, rfl⟩
  · split at h
    · simp at h; rw [← h]; exact ⟨rfl, rfl⟩
    · split at h
      · simp at h
      · simp at h; rw [← h]; exact ⟨rfl, rfl⟩
      · rename_i nl g2 hr
        simp only [Except.ok.injEq] at h
        obtain ⟨e1, e2⟩ := rcf_frame _ _ _ _ _ hr
        rw [← h]
        exact ⟨e1, e2⟩

/-- The phase-1 scan changes neither inputs nor outputs. -/
theorem phase1_fold_frame (refs : List Nat) :
    ∀ (ids : List Nat) (g g' : AigGraph),
      List.foldlM (phase1Step refs) g ids = .ok g' →
      g'.inputs = g.inputs ∧ g'.outputs = g.outputs := by
  intro ids
  induction ids with
  | nil =>
    intro g g' h
    rw [List.foldlM_nil] at h
    cases h
    exact ⟨rfl, rfl⟩
  | cons x ids ih =>
    intro g g' h
    rw [List.foldlM_cons] at h
    cases hx : phase1Step refs g x with
    | error e => rw [hx] at h; cases h
    | ok g1 =>
      rw [hx] at h
      have h2 : List.foldlM (phase1Step refs) g1 ids = .ok g' := h
      obtain ⟨e1, e2⟩ := phase1Step_frame refs g x g1 hx
      obtain ⟨e3, e4⟩ := ih g1 g' h2
      exact ⟨e3.trans e1, e4.trans e2⟩

/-- rewrite_phase1 changes neither inputs nor outputs. -/
theorem rewrite_phase1_frame (g g' : AigGraph) (h : rewrite_phase1 g = .ok g') :
    g'.inputs = g.inputs ∧ g'.outputs = g.outputs :=
  phase1_fold_frame (build_refs g) (List.range' 1 (g.nodes.length - 1)) g g' h

/-- The rebuilt input list of optimize is the fresh ids 1..n in order. -/
theorem optimize_inputs (g g' : AigGraph) (h : optimize g = .ok g') :
    g'.inputs = List.range' 1 g.inputs.length := by
  obtain ⟨n0, rest, st2, new_outputs, hn, hres, hg'⟩ := optimize_ok_elim g g' h
  have hf := (seedFold_facts g.inputs (initOptState g n0, [])).2.1
  rw [hg']
  show (seedInputs g (initOptState g n0)).2 = List.range' 1 g.inputs.length
  unfold seedInputs
  rw [hf]
  have : (initOptState g n0, ([] : List Nat)).1.new_nodes.length = 1 := rfl
  rw [this, List.nil_append]

/-- Claim C5 as amended.  Invariant 2 (every AND-gate's fanins reference
strictly smaller node ids) is preserved by addInput, addAnd and addOutput and
established unconditionally by optimize and rewrite_phase2; rewrite_phase1 is
excluded, as the counterexample shows it can violate the invariant. -/
theorem c5_amended_invariant :
    (∀ g, inv2b g = true → inv2b (addInput g).2 = true) ∧
    (∀ g a b r g', inv2b g = true → addAnd g a b = .ok (r, g') → inv2b g' = true) ∧
    (∀ g lit g', inv2b g = true → addOutput g lit = .ok g' → inv2b g' = true) ∧
    (∀ g g', optimize g = .ok g' → inv2b g' = true) ∧
    (∀ g g', rewrite_phase2 g = .ok g' → inv2b g' = true) := by
  have hopt : ∀ g g', optimize g = .ok g' → inv2b g' = true := by
    intro g g' h
    rw [inv2b_iff]
    exact optimize_faninsLt g g' h
  refine ⟨?_, ?_, ?_, hopt, ?_⟩
  · intro g hg
    rw [inv2b_iff] at hg ⊢
    exact faninsLt_append _ _ hg (fun hni => by cases hni)
  · intro g a b r g' hg h
    rw [inv2b_iff] at hg ⊢
    rcases addAnd_ok_cases g a b r g' h with hcase | ⟨h1, h2, hcase⟩
    · rw [hcase]; exact hg
    · rw [hcase]
      exact faninsLt_append _ _ hg (fun _ => ⟨h1, h2⟩)
  · intro g lit g' hg h
    unfold addOutput at h
    split at h
    · cases h
    · simp only [Except.ok.injEq] at h
      rw [inv2b_iff] at hg ⊢
      rw [← h]
      exact hg
  · intro g g' h
    unfold rewrite_phase2 at h
    split at h
    · cases h
    · exact hopt _ _ h

/-- Witness for C5's amended claim at concrete inputs: adding an input to the
fresh graph preserves the invariant, and optimizing the fresh graph
establishes it. -/
theorem c5_amended_witness :
    inv2b (addInput aigInit).2 = true ∧
    inv2b { nodes := [⟨0, 0, false⟩], inputs := [], outputs := [],
            computed_table := [] } = true :=
  ⟨c5_amended_invariant.1 aigInit (by decide),
   c5_amended_invariant.2.2.2.1 aigInit _ (by rfl)⟩

/-- rewrite_phase2 renumbers the inputs to the fresh ids 1..n. -/
theorem rewrite_phase2_inputs (g g' : AigGraph) (h : rewrite_phase2 g = .ok g') :
    g'.inputs = List.range' 1 g.inputs.length := by
  unfold rewrite_phase2 at h
  split at h
  · cases h
  · rename_i repl hrepl
    have := optimize_inputs _ _ h
    exact this

/-- One rewrite round renumbers the inputs to the fresh ids 1..n. -/
theorem rewriteRound_inputs (g g' : AigGraph) (h : rewriteRound g = .ok g') :
    g'.inputs = List.range' 1 g.inputs.length := by
  unfold rewriteRound at h
  split at h
  · cases h
  · rename_i g1 h1
    split at h
    · cases h
    · rename_i g2 h2
      have e1 : g1.inputs = g.inputs := (rewrite_phase1_frame g g1 h1).1
      have e2 : g2.inputs = List.range' 1 g1.inputs.length := optimize_inputs g1 g2 h2
      have e3 : g'.inputs = List.range' 1 g2.inputs.length := rewrite_phase2_inputs g2 g' h
      rw [e3, e2, List.length_range', e1]

/-- rewrite (three rounds) renumbers the inputs to the fresh ids 1..n with n
the original input count. -/
theorem rewrite_inputs (g g' : AigGraph) (h : rewrite g = .ok g') :
    g'.inputs = List.range' 1 g.inputs.length := by
  unfold rewrite at h
  split at h
  · cases h
  · rename_i g1 h1
    split at h
    · cases h
    · rename_i g2 h2
      have e1 := rewriteRound_inputs g g1 h1
      have e2 := rewriteRound_inputs g1 g2 h2
      have e3 := rewriteRound_inputs g2 g' h
      rw [e3, e2, List.length_range', e1, List.length_range']

/-- Claim C8.  Across optimize and rewrite the primary-input list keeps its
length and order: optimize rebuilds the input list as the fresh ids 1..n in
original order, with an input node at every such id, the seeding maps the
p-th original input (reachable or not) to the literal of fresh node p+1, and
rewrite preserves the input count likewise. -/
theorem c8_input_order :
    (∀ g g', optimize g = .ok g' →
        g'.inputs = List.range' 1 g.inputs.length ∧
        g'.inputs.length = g.inputs.length ∧
        (∀ p, p < g.inputs.length → g'.nodes.get? (p + 1) = some ⟨0, 0, true⟩)) ∧
    (∀ g n0, g.inputs.Nodup → (∀ i, i ∈ g.inputs → i < g.nodes.length) →
        ∀ p, p < g.inputs.length →
          mapval (seedInputs g (initOptState g n0)).1 (g.inputs.getD p 0)
            = some (make_lit (p + 1) false)) ∧
    (∀ g g', rewrite g = .ok g' →
        g'.inputs = List.range' 1 g.inputs.length ∧
        g'.inputs.length = g.inputs.length) := by
  refine ⟨?_, ?_, ?_⟩
  · intro g g' h
    have hi := optimize_inputs g g' h
    refine ⟨hi, by rw [hi, List.length_range'], ?_⟩
    intro p hp
    obtain ⟨n0, rest, st2, new_outputs, hn, hres, hg'⟩ := optimize_ok_elim g g' h
    have hseed : stInv (seedInputs g (initOptState g n0)).1 :=
      seedFold_inv g.inputs (initOptState g n0, []) (initOptState_inv g n0)
    obtain ⟨_, ⟨tail, htail⟩, _⟩ := resolveOutputs_inv g (g.nodes.length + 1) g.outputs
      (seedInputs g (initOptState g n0)).1 st2 new_outputs hseed hres
    have hf1 : (seedInputs g (initOptState g n0)).1.new_nodes
        = [n0] ++ List.replicate g.inputs.length ⟨0, 0, true⟩ :=
      (seedFold_facts g.inputs (initOptState g n0, [])).1
    rw [hg']
    show st2.new_nodes.get? (p + 1) = some ⟨0, 0, true⟩
    rw [htail, hf1, List.get?_eq_getElem?, List.getElem?_append, if_pos
      (by simp [List.length_replicate]; omega)]
    rw [List.getElem?_append, if_neg (by simp)]
    simp only [List.length_singleton]
    rw [List.getElem?_replicate, if_pos (by omega)]
  · intro g n0 hnd hrange p hp
    have hlen : (initOptState g n0).old2new.length = g.nodes.length := by
      show ((List.replicate g.nodes.length (none : Option Nat)).set 0 (some 0)).length
          = g.nodes.length
      rw [List.length_set, List.length_replicate]
    have := seedFold_mapval g.inputs (initOptState g n0, []) hnd
      (by intro i hi; rw [hlen]; exact hrange i hi) p hp
    have h1 : (initOptState g n0, ([] : List Nat)).1.new_nodes.length = 1 := rfl
    rw [h1] at this
    rw [show (1 : Nat) + p = p + 1 by omega] at this
    exact this
  · intro g g' h
    have hi := rewrite_inputs g g' h
    exact ⟨hi, by rw [hi, List.length_range']⟩

/-- A one-input graph used as the C8 witness. -/
def c8g : AigGraph := ⟨[⟨0, 0, false⟩, ⟨0, 0, true⟩], [1], [], []⟩

/-- Witness for C8 at a concrete input: optimizing the one-input graph keeps
the input list [1], and the seeding maps input 1 to the literal of fresh
node 1. -/
theorem c8_witness :
    c8g.inputs = List.range' 1 c8g.inputs.length ∧
    mapval (seedInputs c8g (initOptState c8g ⟨0, 0, false⟩)).1 (c8g.inputs.getD 0 0)
      = some (make_lit (0 + 1) false) :=
  ⟨(c8_input_order.1 c8g c8g (by rfl)).1,
   c8_input_order.2.1 c8g ⟨0, 0, false⟩ (by decide) (by decide) 0 (by decide)⟩

/-! Machinery for optimize idempotence (claim C6). -/

theorem make_lit_inj (k k2 : Nat) (b b2 : Bool) (h : make_lit k b = make_lit k2 b2) :
    k = k2 ∧ b = b2 := by
  constructor
  · have := congrArg lit_id h
    rwa [lit_id_make, lit_id_make] at this
  · have := congrArg lit_inv h
    rwa [lit_inv_make, lit_inv_make] at this

theorem make_lit_true_eq (k : Nat) : make_lit k true = make_lit k false ^^^ 1 := by
  simp [make_lit, two_mul_xor_one]

theorem make_lit_false_eq (k : Nat) : make_lit k false = make_lit k true ^^^ 1 := by
  rw [make_lit_true_eq, xor1_xor1]

theorem same_id_cases (x y : Nat) (h : lit_id x = lit_id y) : x = y ∨ x = y ^^^ 1 := by
  have hx := lit_decomp x
  have hy := lit_decomp y
  have hx2 : x = make_lit (lit_id y) (lit_inv x) := by rw [← h]; exact hx
  cases hbx : lit_inv x with
  | false =>
    rw [hbx] at hx2
    cases hby : lit_inv y with
    | false =>
      rw [hby] at hy
      exact Or.inl (hx2.trans hy.symm)
    | true =>
      rw [hby] at hy
      rw [make_lit_false_eq] at hx2
      exact Or.inr (by rw [hx2, ← hy])
  | true =>
    rw [hbx] at hx2
    cases hby : lit_inv y with
    | false =>
      rw [hby] at hy
      rw [make_lit_true_eq] at hx2
      exact Or.inr (by rw [hx2, ← hy])
    | true =>
      rw [hby] at hy
      exact Or.inl (hx2.trans hy.symm)

theorem normPair_cases (x y : Nat) : normPair x y = (x, y) ∨ normPair x y = (y, x) := by
  unfold normPair
  split
  · exact Or.inr rfl
  · exact Or.inl rfl

theorem normPair_lt (x y : Nat) (h : x ≠ y) : (normPair x y).1 < (normPair x y).2 := by
  unfold normPair
  split <;> omega

theorem prefix_get? {α : Type} (l1 l2 : List α) (h : ∃ t, l2 = l1 ++ t) (j : Nat)
    (hj : j < l1.length) : l2.get? j = l1.get? j := by
  obtain ⟨t, ht⟩ := h
  subst ht
  rw [List.get?_eq_getElem?, List.get?_eq_getElem?, List.getElem?_append, if_pos hj]

/-- The data-model invariants of section 3 of the spec, as hypotheses for the
idempotence theorem: constant at node 0, a well-formed input list, and gates
that are ordered (invariant 2), simplified and normalized (invariant 3) and
pairwise distinct (invariant 4), with in-range outputs. -/
structure Wf (g : AigGraph) : Prop where
  nonempty : g.nodes ≠ []
  const0 : ∀ n, g.nodes.get? 0 = some n → n.is_input = false
  inputsNodup : g.inputs.Nodup
  inputsRange : ∀ i, i ∈ g.inputs → 0 < i ∧ i < g.nodes.length
  inputsAll : ∀ i n, g.nodes.get? i = some n → n.is_input = true → i ∈ g.inputs
  gatesLt : faninsLt g.nodes
  gatesNorm : ∀ j n, g.nodes.get? j = some n → j ≠ 0 → n.is_input = false →
      2 ≤ n.fanin0 ∧ n.fanin0 < n.fanin1 ∧ lit_id n.fanin0 ≠ lit_id n.fanin1
  gatesDedup : ∀ j j2 n n2, g.nodes.get? j = some n → g.nodes.get? j2 = some n2 →
      j ≠ 0 → j2 ≠ 0 → n.is_input = false → n2.is_input = false →
      n.fanin0 = n2.fanin0 → n.fanin1 = n2.fanin1 → j = j2
  outputsRange : ∀ o, o ∈ g.outputs → lit_id o < g.nodes.length

/-- The inductive invariant carried along optimize's rebuild of a well-formed
graph: the arena is the constant node, then the fresh inputs, then created
gates; the map is positive-literal-valued and injective; created gates are
normalized, strash-recorded, and each originates from a distinct old gate
whose resolved fanins give exactly its fanin pair. -/
structure RunInv (g : AigGraph) (st : OptState) : Prop where
  base : stInv st
  o2len : st.old2new.length = g.nodes.length
  nlen : g.inputs.length + 1 ≤ st.new_nodes.length
  map0 : mapval st 0 = some 0
  mapPos : ∀ i v, mapval st i = some v → i ≠ 0 → ∃ k, v = make_lit k false ∧ 1 ≤ k
  mapInj : ∀ i i2 v, mapval st i = some v → mapval st i2 = some v → i = i2
  inputsAt : ∀ k, 1 ≤ k → k ≤ g.inputs.length → st.new_nodes.get? k = some ⟨0, 0, true⟩
  inputsMapped : ∀ p, p < g.inputs.length →
      mapval st (g.inputs.getD p 0) = some (make_lit (p + 1) false)
  gatesAt : ∀ k nk, g.inputs.length + 1 ≤ k → st.new_nodes.get? k = some nk →
      nk.is_input = false ∧ 2 ≤ nk.fanin0 ∧ nk.fanin0 < nk.fanin1 ∧
      lit_id nk.fanin0 ≠ lit_id nk.fanin1
  strashAt : ∀ k nk, g.inputs.length + 1 ≤ k → st.new_nodes.get? k = some nk →
      tableLookup st.strash (nk.fanin0, nk.fanin1) = some (make_lit k false)
  strashOnly : ∀ key v, tableLookup st.strash key = some v →
      ∃ k nk, g.inputs.length + 1 ≤ k ∧ st.new_nodes.get? k = some nk ∧
        v = make_lit k false ∧ (nk.fanin0, nk.fanin1) = key
  origin : ∀ k nk, g.inputs.length + 1 ≤ k → st.new_nodes.get? k = some nk →
      ∃ i ni xm ym, g.nodes.get? i = some ni ∧ i ≠ 0 ∧ ni.is_input = false ∧
        mapval st i = some (make_lit k false) ∧
        mapval st (lit_id ni.fanin0) = some xm ∧
        mapval st (lit_id ni.fanin1) = some ym ∧
        (nk.fanin0, nk.fanin1)
          = normPair (litFlip xm (lit_inv ni.fanin0)) (litFlip ym (lit_inv ni.fanin1))

theorem getD_of_getElem {α : Type} (l : List α) (p : Nat) (h : p < l.length) (d : α) :
    l.getD p d = l[p] := by
  rw [List.getD_eq_getElem?_getD, List.getElem?_eq_getElem h]
  rfl

theorem get?_some_lt {α : Type} (l : List α) (j : Nat) (a : α) (h : l.get? j = some a) :
    j < l.length := by
  by_contra hc
  push_neg at hc
  rw [List.get?_eq_none.mpr hc] at h
  cases h

/-- Characterization of the map right after seeding: node 0 maps to literal 0
and the p-th input maps to the literal of fresh node p+1; nothing else is
mapped. -/
theorem seed_mapval_char (g : AigGraph) (n0 : AigNode) (hnd : g.inputs.Nodup)
    (hrange : ∀ i, i ∈ g.inputs → 0 < i ∧ i < g.nodes.length)
    (hne : g.nodes ≠ []) :
    ∀ i v, mapval (seedInputs g (initOptState g n0)).1 i = some v →
      (i = 0 ∧ v = 0) ∨
      (∃ p, p < g.inputs.length ∧ g.inputs.getD p 0 = i ∧ v = make_lit (p + 1) false) := by
  intro i v hv
  have hlen0 : 0 < g.nodes.length := List.length_pos.mpr hne
  have ho2len : (initOptState g n0).old2new.length = g.nodes.length := by
    show ((List.replicate g.nodes.length (none : Option Nat)).set 0 (some 0)).length
        = g.nodes.length
    rw [List.length_set, List.length_replicate]
  by_cases hmem : i ∈ g.inputs
  · obtain ⟨p, hp, hpi⟩ := List.mem_iff_getElem.mp hmem
    have hgd : g.inputs.getD p 0 = i := by rw [getD_of_getElem _ _ hp, hpi]
    have := seedFold_mapval g.inputs (initOptState g n0, []) hnd
      (by intro j hj; rw [ho2len]; exact (hrange j hj).2) p hp
    rw [hgd] at this
    unfold seedInputs at hv
    rw [hv] at this
    have h1 : (initOptState g n0, ([] : List Nat)).1.new_nodes.length = 1 := rfl
    rw [h1] at this
    simp only [Option.some.injEq] at this
    right
    exact ⟨p, hp, hgd, by rw [this, show 1 + p = p + 1 from by omega]⟩
  · have := seedFold_mapval_notmem g.inputs (initOptState g n0, []) i hmem
    unfold seedInputs at hv
    rw [this] at hv
    have hv2 : ((List.replicate g.nodes.length (none : Option Nat)).set 0
        (some 0)).getD i none = some v := hv
    rw [getD_set_full] at hv2
    split at hv2
    · rename_i hc
      simp only [Option.some.injEq] at hv2
      exact Or.inl ⟨hc.1.symm, hv2.symm⟩
    · rw [getD_replicate] at hv2
      split at hv2 <;> cases hv2

/-- After seeding a well-formed graph, the rebuild state satisfies the full
run invariant. -/
theorem seed_RunInv (g : AigGraph) (n0 : AigNode) (hWf : Wf g) :
    RunInv g (seedInputs g (initOptState g n0)).1 := by
  have hne := hWf.nonempty
  have hlen0 : 0 < g.nodes.length := List.length_pos.mpr hne
  have hchar := seed_mapval_char g n0 hWf.inputsNodup hWf.inputsRange hne
  have hf := seedFold_facts g.inputs (initOptState g n0, [])
  have hnodes : (seedInputs g (initOptState g n0)).1.new_nodes
      = [n0] ++ List.replicate g.inputs.length ⟨0, 0, true⟩ := hf.1
  have hlen : (seedInputs g (initOptState g n0)).1.new_nodes.length
      = g.inputs.length + 1 := by
    rw [hnodes, List.length_append, List.length_singleton, List.length_replicate]
    omega
  have hstrash : (seedInputs g (initOptState g n0)).1.strash = [] := hf.2.2.2
  have ho2len : (initOptState g n0).old2new.length = g.nodes.length := by
    show ((List.replicate g.nodes.length (none : Option Nat)).set 0 (some 0)).length
        = g.nodes.length
    rw [List.length_set, List.length_replicate]
  refine ⟨?_, ?_, ?_, ?_, ?_, ?_, ?_, ?_, ?_, ?_, ?_, ?_⟩
  · exact seedFold_inv g.inputs (initOptState g n0, []) (initOptState_inv g n0)
  · unfold seedInputs
    rw [hf.2.2.1]
    exact ho2len
  · omega
  · have h0 : (0 : Nat) ∉ g.inputs := fun hc => by
      have := (hWf.inputsRange 0 hc).1; omega
    have := seedFold_mapval_notmem g.inputs (initOptState g n0, []) 0 h0
    show mapval (seedInputs g (initOptState g n0)).1 0 = some 0
    unfold seedInputs
    rw [this]
    show ((List.replicate g.nodes.length (none : Option Nat)).set 0 (some 0)).getD 0 none
        = some 0
    rw [getD_set_full, if_pos ⟨rfl, by rw [List.length_replicate]; omega⟩]
  · intro i v hv hi0
    rcases hchar i v hv with ⟨h1, _⟩ | ⟨p, _, _, hval⟩
    · exact absurd h1 hi0
    · exact ⟨p + 1, hval, by omega⟩
  · intro i i2 v h1 h2
    rcases hchar i v h1 with ⟨e1, e2⟩ | ⟨p, hp, hpi, hval⟩ <;>
      rcases hchar i2 v h2 with ⟨e3, e4⟩ | ⟨q, hq, hqi, hval2⟩
    · rw [e1, e3]
    · subst e2
      exfalso
      have := congrArg lit_id hval2
      rw [lit_id_make] at this
      simp [lit_id] at this
    · subst e4
      exfalso
      have := congrArg lit_id hval
      rw [lit_id_make] at this
      simp [lit_id] at this
    · rw [hval] at hval2
      obtain ⟨hk, _⟩ := make_lit_inj _ _ _ _ hval2
      have hpq : p = q := by omega
      subst hpq
      rw [← hpi, ← hqi]
  · intro k hk1 hk2
    rw [hnodes, List.get?_eq_getElem?, List.getElem?_append, if_neg (by simp; omega)]
    rw [List.length_singleton, List.getElem?_replicate, if_pos (by omega)]
  · intro p hp
    have := seedFold_mapval g.inputs (initOptState g n0, []) hWf.inputsNodup
      (by intro j hj; rw [ho2len]; exact (hWf.inputsRange j hj).2) p hp
    have h1 : (initOptState g n0, ([] : List Nat)).1.new_nodes.length = 1 := rfl
    rw [h1] at this
    show mapval (seedInputs g (initOptState g n0)).1 (g.inputs.getD p 0)
        = some (make_lit (p + 1) false)
    unfold seedInputs
    rw [this, show 1 + p = p + 1 from by omega]
  · intro k nk hk hnk
    exfalso
    have := get?_some_lt _ _ _ hnk
    omega
  · intro k nk hk hnk
    exfalso
    have := get?_some_lt _ _ _ hnk
    omega
  · intro key v hv
    rw [hstrash] at hv
    cases hv
  · intro k nk hk hnk
    exfalso
    have := get?_some_lt _ _ _ hnk
    omega

theorem normPair_eq_cases (x y x2 y2 : Nat) (h : normPair x y = normPair x2 y2) :
    (x = x2 ∧ y = y2) ∨ (x = y2 ∧ y = x2) := by
  rcases normPair_cases x y with h1 | h1 <;> rcases normPair_cases x2 y2 with h2 | h2 <;>
    rw [h1, h2] at h <;> injection h with ha hb
  · exact Or.inl ⟨ha, hb⟩
  · exact Or.inr ⟨ha, hb⟩
  · exact Or.inr ⟨hb, ha⟩
  · exact Or.inl ⟨hb, ha⟩

theorem two_le_of_id_pos (x : Nat) (h : 1 ≤ lit_id x) : 2 ≤ x := by
  unfold lit_id at h
  omega

theorem id_pos_of_two_le (x : Nat) (h : 2 ≤ x) : 1 ≤ lit_id x := by
  unfold lit_id
  omega

theorem eq_of_id_inv (x y : Nat) (hid : lit_id x = lit_id y) (hinv : lit_inv x = lit_inv y) :
    x = y := by
  rw [lit_decomp x, lit_decomp y, hid, hinv]

/-- At an unmapped well-formed gate whose fanins have been resolved, no
algebraic simplification applies to the resolved literals and the strash
lookup misses. -/
theorem fresh_facts (g : AigGraph) (st : OptState) (hWf : Wf g) (hR : RunInv g st)
    (i : Nat) (n : AigNode) (l0 l1 : Nat)
    (hnode : g.nodes.get? i = some n) (hi0 : i ≠ 0) (hni : n.is_input = false)
    (hm0 : mapval st (lit_id n.fanin0) = some (make_lit (lit_id l0) false))
    (hm1 : mapval st (lit_id n.fanin1) = some (make_lit (lit_id l1) false))
    (hinv0 : lit_inv l0 = lit_inv n.fanin0) (hinv1 : lit_inv l1 = lit_inv n.fanin1)
    (hiun : mapval st i = none) :
    2 ≤ l0 ∧ 2 ≤ l1 ∧ lit_id l0 ≠ lit_id l1 ∧ l0 ≠ l1 ∧ l0 ≠ l1 ^^^ 1 ∧
    tableLookup st.strash (normPair l0 l1) = none := by
  obtain ⟨hf02, hf01, hfid⟩ := hWf.gatesNorm i n hnode hi0 hni
  have hidf0 : lit_id n.fanin0 ≠ 0 := by
    have := id_pos_of_two_le _ hf02; omega
  have hidf1 : lit_id n.fanin1 ≠ 0 := by
    have := id_pos_of_two_le _ (by omega : 2 ≤ n.fanin1); omega
  have hk0 : 1 ≤ lit_id l0 := by
    obtain ⟨k, hk, hk1⟩ := hR.mapPos _ _ hm0 hidf0
    obtain ⟨he, _⟩ := make_lit_inj _ _ _ _ hk
    omega
  have hk1 : 1 ≤ lit_id l1 := by
    obtain ⟨k, hk, hk1⟩ := hR.mapPos _ _ hm1 hidf1
    obtain ⟨he, _⟩ := make_lit_inj _ _ _ _ hk
    omega
  have hidne : lit_id l0 ≠ lit_id l1 := by
    intro he
    rw [he] at hm0
    exact hfid (hR.mapInj _ _ _ hm0 hm1)
  have hl0 : 2 ≤ l0 := two_le_of_id_pos _ hk0
  have hl1 : 2 ≤ l1 := two_le_of_id_pos _ hk1
  have hne : l0 ≠ l1 := fun he => hidne (congrArg lit_id he)
  have hnc : l0 ≠ l1 ^^^ 1 := by
    intro he
    apply hidne
    rw [he, lit_id_xor1]
  refine ⟨hl0, hl1, hidne, hne, hnc, ?_⟩
  cases hlook : tableLookup st.strash (normPair l0 l1) with
  | none => rfl
  | some v =>
    exfalso
    obtain ⟨k, nk, hk, hget, hveq, hkey⟩ := hR.strashOnly _ _ hlook
    obtain ⟨i0, ni0, xm, ym, hnode0, hi00, hni0, hmi0, hmx, hmy, hpair⟩ :=
      hR.origin k nk hk hget
    obtain ⟨hg02, hg01, hgid⟩ := hWf.gatesNorm i0 ni0 hnode0 hi00 hni0
    have hidg0 : lit_id ni0.fanin0 ≠ 0 := by
      have := id_pos_of_two_le _ hg02; omega
    have hidg1 : lit_id ni0.fanin1 ≠ 0 := by
      have := id_pos_of_two_le _ (by omega : 2 ≤ ni0.fanin1); omega
    obtain ⟨kx, hkx, _⟩ := hR.mapPos _ _ hmx hidg0
    obtain ⟨ky, hky, _⟩ := hR.mapPos _ _ hmy hidg1
    rw [hkx, litFlip_make_false] at hpair
    rw [hky, litFlip_make_false] at hpair
    rw [hkey] at hpair
    rcases normPair_eq_cases _ _ _ _ hpair.symm with ⟨hx, hy⟩ | ⟨hx, hy⟩
    · have hxid := congrArg lit_id hx
      rw [lit_id_make] at hxid
      have hxinv := congrArg lit_inv hx
      rw [lit_inv_make] at hxinv
      have hyid := congrArg lit_id hy
      rw [lit_id_make] at hyid
      have hyinv := congrArg lit_inv hy
      rw [lit_inv_make] at hyinv
      rw [hxid] at hkx
      rw [hyid] at hky
      rw [hkx] at hmx
      rw [hky] at hmy
      have he0 : lit_id ni0.fanin0 = lit_id n.fanin0 := hR.mapInj _ _ _ hmx hm0
      have he1 : lit_id ni0.fanin1 = lit_id n.fanin1 := hR.mapInj _ _ _ hmy hm1
      have hq0 : ni0.fanin0 = n.fanin0 :=
        eq_of_id_inv _ _ he0 (by rw [hxinv]; exact hinv0)
      have hq1 : ni0.fanin1 = n.fanin1 :=
        eq_of_id_inv _ _ he1 (by rw [hyinv]; exact hinv1)
      have : i0 = i := hWf.gatesDedup i0 i ni0 n hnode0 hnode hi00 hi0 hni0 hni hq0 hq1
      rw [this, hiun] at hmi0
      cases hmi0
    · have hxid := congrArg lit_id hx
      rw [lit_id_make] at hxid
      have hxinv := congrArg lit_inv hx
      rw [lit_inv_make] at hxinv
      have hyid := congrArg lit_id hy
      rw [lit_id_make] at hyid
      have hyinv := congrArg lit_inv hy
      rw [lit_inv_make] at hyinv
      rw [hxid] at hkx
      rw [hyid] at hky
      rw [hkx] at hmx
      rw [hky] at hmy
      have he0 : lit_id ni0.fanin0 = lit_id n.fanin1 := hR.mapInj _ _ _ hmx hm1
      have he1 : lit_id ni0.fanin1 = lit_id n.fanin0 := hR.mapInj _ _ _ hmy hm0
      have hq0 : ni0.fanin0 = n.fanin1 :=
        eq_of_id_inv _ _ he0 (by rw [hxinv]; exact hinv1)
      have hq1 : ni0.fanin1 = n.fanin0 :=
        eq_of_id_inv _ _ he1 (by rw [hyinv]; exact hinv0)
      rw [hq0, hq1] at hg01
      omega

/-- strashStep at a fresh, simplified, missed pair allocates one gate. -/
theorem strashStep_fresh (st : OptState) (l0 l1 : Nat)
    (h0 : 2 ≤ l0) (h1 : 2 ≤ l1) (hne : l0 ≠ l1) (hnc : l0 ≠ l1 ^^^ 1)
    (hmiss : tableLookup st.strash (normPair l0 l1) = none) :
    strashStep st l0 l1 =
      ({ st with
          new_nodes := st.new_nodes ++ [⟨(normPair l0 l1).1, (normPair l0 l1).2, false⟩],
          strash := (normPair l0 l1, make_lit st.new_nodes.length false) :: st.strash },
       make_lit st.new_nodes.length false) := by
  unfold strashStep
  rw [if_neg (by omega : ¬(l0 = 0 ∨ l1 = 0)), if_neg (by omega : ¬(l0 = 1)),
    if_neg (by omega : ¬(l1 = 1)), if_neg hne, if_neg hnc]
  dsimp only
  rw [hmiss]

/-- Allocating the resolved gate for an unmapped well-formed old gate
preserves the full run invariant. -/
theorem RunInv_create (g : AigGraph) (st : OptState) (hWf : Wf g) (hR : RunInv g st)
    (i : Nat) (n : AigNode) (l0 l1 : Nat)
    (hnode : g.nodes.get? i = some n) (hi0 : i ≠ 0) (hni : n.is_input = false)
    (hm0 : mapval st (lit_id n.fanin0) = some (make_lit (lit_id l0) false))
    (hm1 : mapval st (lit_id n.fanin1) = some (make_lit (lit_id l1) false))
    (hinv0 : lit_inv l0 = lit_inv n.fanin0) (hinv1 : lit_inv l1 = lit_inv n.fanin1)
    (hiun : mapval st i = none)
    (hbase : stInv (⟨st.new_nodes ++ [⟨(normPair l0 l1).1, (normPair l0 l1).2, false⟩],
        (normPair l0 l1, make_lit st.new_nodes.length false) :: st.strash,
        st.old2new.set i (some (make_lit st.new_nodes.length false))⟩ : OptState)) :
    RunInv g (⟨st.new_nodes ++ [⟨(normPair l0 l1).1, (normPair l0 l1).2, false⟩],
        (normPair l0 l1, make_lit st.new_nodes.length false) :: st.strash,
        st.old2new.set i (some (make_lit st.new_nodes.length false))⟩ : OptState) := by
  obtain ⟨hl0, hl1, hidne, hne, hnc, hmiss⟩ :=
    fresh_facts g st hWf hR i n l0 l1 hnode hi0 hni hm0 hm1 hinv0 hinv1 hiun
  have hilen : i < g.nodes.length := get?_some_lt _ _ _ hnode
  have hio2 : i < st.old2new.length := by rw [hR.o2len]; exact hilen
  have hf0lt : lit_id n.fanin0 < i ∧ lit_id n.fanin1 < i :=
    hWf.gatesLt i hilen hi0 n hnode hni
  have hKn : g.inputs.length + 1 ≤ st.new_nodes.length := hR.nlen
  have hprefix : ∃ t, (st.new_nodes ++
      [(⟨(normPair l0 l1).1, (normPair l0 l1).2, false⟩ : AigNode)]) = st.new_nodes ++ t :=
    ⟨_, rfl⟩
  have hlen : (st.new_nodes ++
      [(⟨(normPair l0 l1).1, (normPair l0 l1).2, false⟩ : AigNode)]).length
      = st.new_nodes.length + 1 := by
    rw [List.length_append, List.length_singleton]
  have hgetK : (st.new_nodes ++
      [(⟨(normPair l0 l1).1, (normPair l0 l1).2, false⟩ : AigNode)]).get?
        st.new_nodes.length
      = some ⟨(normPair l0 l1).1, (normPair l0 l1).2, false⟩ := by
    rw [List.get?_eq_getElem?, List.getElem?_append, if_neg (by omega), Nat.sub_self]
    rfl
  refine ⟨hbase, ?_, ?_, ?_, ?_, ?_, ?_, ?_, ?_, ?_, ?_, ?_⟩
  · show (st.old2new.set i (some (make_lit st.new_nodes.length false))).length
        = g.nodes.length
    rw [List.length_set]
    exact hR.o2len
  · show g.inputs.length + 1 ≤ (st.new_nodes ++ _).length
    rw [hlen]
    omega
  · show (st.old2new.set i (some (make_lit st.new_nodes.length false))).getD 0 none
        = some 0
    rw [getD_set_full, if_neg (fun hc => hi0 hc.1)]
    exact hR.map0
  · intro j v hv hj0
    have hv2 : (st.old2new.set i (some (make_lit st.new_nodes.length false))).getD j none
        = some v := hv
    rw [getD_set_full] at hv2
    split at hv2
    · simp only [Option.some.injEq] at hv2
      exact ⟨st.new_nodes.length, hv2.symm, by omega⟩
    · exact hR.mapPos j v hv2 hj0
  · intro j j2 v h1 h2
    have h1b : (st.old2new.set i (some (make_lit st.new_nodes.length false))).getD j none
        = some v := h1
    have h2b : (st.old2new.set i (some (make_lit st.new_nodes.length false))).getD j2 none
        = some v := h2
    rw [getD_set_full] at h1b h2b
    split at h1b <;> split at h2b
    · rename_i hc1 hc2
      rw [← hc1.1, ← hc2.1]
    · rename_i hc1 hc2
      exfalso
      simp only [Option.some.injEq] at h1b
      have := hR.base.2.1 j2 v h2b
      rw [← h1b, lit_id_make] at this
      omega
    · rename_i hc1 hc2
      exfalso
      simp only [Option.some.injEq] at h2b
      have := hR.base.2.1 j v h1b
      rw [← h2b, lit_id_make] at this
      omega
    · exact hR.mapInj j j2 v h1b h2b
  · intro k hk1 hk2
    show (st.new_nodes ++ _).get? k = some ⟨0, 0, true⟩
    rw [prefix_get? st.new_nodes _ hprefix k (by omega)]
    exact hR.inputsAt k hk1 hk2
  · intro p hp
    have hiq : ¬ (i = g.inputs.getD p 0 ∧ i < st.old2new.length) := by
      intro hc
      rw [hc.1] at hiun
      rw [hR.inputsMapped p hp] at hiun
      cases hiun
    show (st.old2new.set i (some (make_lit st.new_nodes.length false))).getD
        (g.inputs.getD p 0) none = some (make_lit (p + 1) false)
    rw [getD_set_full, if_neg (fun hc => hiq ⟨hc.1, hc.2⟩)]
    exact hR.inputsMapped p hp
  · intro k nk hk hget
    have hklt : k < st.new_nodes.length + 1 := by
      have := get?_some_lt _ _ _ hget
      rw [hlen] at this
      exact this
    by_cases hkK : k < st.new_nodes.length
    · rw [show ((⟨st.new_nodes ++ _, _, _⟩ : OptState).new_nodes) = st.new_nodes ++ _ from rfl,
        prefix_get? st.new_nodes _ hprefix k hkK] at hget
      exact hR.gatesAt k nk hk hget
    · have hkeq : k = st.new_nodes.length := by omega
      subst hkeq
      rw [show ((⟨st.new_nodes ++ _, _, _⟩ : OptState).new_nodes) = st.new_nodes ++ _ from rfl,
        hgetK] at hget
      injection hget with hget
      subst hget
      have hp1 : 2 ≤ (normPair l0 l1).1 := by
        unfold normPair; split <;> omega
      have hp12 : (normPair l0 l1).1 < (normPair l0 l1).2 := normPair_lt l0 l1 hne
      have hpid : lit_id (normPair l0 l1).1 ≠ lit_id (normPair l0 l1).2 := by
        unfold normPair; split
        · exact fun hc => hidne hc.symm
        · exact hidne
      exact ⟨rfl, hp1, hp12, hpid⟩
  · intro k nk hk hget
    have hklt : k < st.new_nodes.length + 1 := by
      have := get?_some_lt _ _ _ hget
      rw [hlen] at this
      exact this
    by_cases hkK : k < st.new_nodes.length
    · rw [show ((⟨st.new_nodes ++ _, _, _⟩ : OptState).new_nodes) = st.new_nodes ++ _ from rfl,
        prefix_get? st.new_nodes _ hprefix k hkK] at hget
      have hold := hR.strashAt k nk hk hget
      show tableLookup ((normPair l0 l1, make_lit st.new_nodes.length false) :: st.strash)
          (nk.fanin0, nk.fanin1) = some (make_lit k false)
      rw [tableLookup_cons]
      split
      · rename_i hc
        exfalso
        rw [show ((normPair l0 l1, make_lit st.new_nodes.length false) :
            (Nat × Nat) × Nat).1 = normPair l0 l1 from rfl] at hc
        rw [hc] at hmiss
        rw [hold] at hmiss
        cases hmiss
      · exact hold
    · have hkeq : k = st.new_nodes.length := by omega
      subst hkeq
      rw [show ((⟨st.new_nodes ++ _, _, _⟩ : OptState).new_nodes) = st.new_nodes ++ _ from rfl,
        hgetK] at hget
      injection hget with hget
      subst hget
      show tableLookup ((normPair l0 l1, make_lit st.new_nodes.length false) :: st.strash)
          ((normPair l0 l1).1, (normPair l0 l1).2) = some (make_lit st.new_nodes.length false)
      rw [tableLookup_cons, if_pos rfl]
  · intro key v hv
    have hv2 : tableLookup ((normPair l0 l1, make_lit st.new_nodes.length false) :: st.strash)
        key = some v := hv
    rw [tableLookup_cons] at hv2
    split at hv2
    · rename_i hc
      simp only [Option.some.injEq] at hv2
      refine ⟨st.new_nodes.length, ⟨(normPair l0 l1).1, (normPair l0 l1).2, false⟩,
        by omega, ?_, hv2.symm, ?_⟩
      · exact hgetK
      · rw [← hc]
    · obtain ⟨k, nk, hk, hget, hveq, hkey⟩ := hR.strashOnly key v hv2
      have hkK : k < st.new_nodes.length := get?_some_lt _ _ _ hget
      refine ⟨k, nk, hk, ?_, hveq, hkey⟩
      rw [show ((⟨st.new_nodes ++ _, _, _⟩ : OptState).new_nodes) = st.new_nodes ++ _ from rfl,
        prefix_get? st.new_nodes _ hprefix k hkK]
      exact hget
  · intro k nk hk hget
    have hklt : k < st.new_nodes.length + 1 := by
      have := get?_some_lt _ _ _ hget
      rw [hlen] at this
      exact this
    by_cases hkK : k < st.new_nodes.length
    · rw [show ((⟨st.new_nodes ++ _, _, _⟩ : OptState).new_nodes) = st.new_nodes ++ _ from rfl,
        prefix_get? st.new_nodes _ hprefix k hkK] at hget
      obtain ⟨i0, ni0, xm, ym, hnode0, hi00, hni0, hmi0, hmx, hmy, hpair⟩ :=
        hR.origin k nk hk hget
      have hi0i : i0 ≠ i := by
        intro hc
        rw [hc, hiun] at hmi0
        cases hmi0
      have hx0i : lit_id ni0.fanin0 ≠ i := by
        intro hc
        rw [hc, hiun] at hmx
        cases hmx
      have hy0i : lit_id ni0.fanin1 ≠ i := by
        intro hc
        rw [hc, hiun] at hmy
        cases hmy
      refine ⟨i0, ni0, xm, ym, hnode0, hi00, hni0, ?_, ?_, ?_, hpair⟩
      · show (st.old2new.set i (some (make_lit st.new_nodes.length false))).getD i0 none
            = some (make_lit k false)
        rw [getD_set_full, if_neg (fun hc => hi0i hc.1.symm)]
        exact hmi0
      · show (st.old2new.set i (some (make_lit st.new_nodes.length false))).getD
            (lit_id ni0.fanin0) none = some xm
        rw [getD_set_full, if_neg (fun hc => hx0i hc.1.symm)]
        exact hmx
      · show (st.old2new.set i (some (make_lit st.new_nodes.length false))).getD
            (lit_id ni0.fanin1) none = some ym
        rw [getD_set_full, if_neg (fun hc => hy0i hc.1.symm)]
        exact hmy
    · have hkeq : k = st.new_nodes.length := by omega
      subst hkeq
      rw [show ((⟨st.new_nodes ++ _, _, _⟩ : OptState).new_nodes) = st.new_nodes ++ _ from rfl,
        hgetK] at hget
      injection hget with hget
      subst hget
      refine ⟨i, n, make_lit (lit_id l0) false, make_lit (lit_id l1) false,
        hnode, hi0, hni, ?_, ?_, ?_, ?_⟩
      · show (st.old2new.set i (some (make_lit st.new_nodes.length false))).getD i none
            = some (make_lit st.new_nodes.length false)
        rw [getD_set_full, if_pos ⟨rfl, hio2⟩]
      · show (st.old2new.set i (some (make_lit st.new_nodes.length false))).getD
            (lit_id n.fanin0) none = some (make_lit (lit_id l0) false)
        rw [getD_set_full, if_neg (fun hc => by omega)]
        exact hm0
      · show (st.old2new.set i (some (make_lit st.new_nodes.length false))).getD
            (lit_id n.fanin1) none = some (make_lit (lit_id l1) false)
        rw [getD_set_full, if_neg (fun hc => by omega)]
        exact hm1
      · show ((normPair l0 l1).1, (normPair l0 l1).2)
            = normPair (litFlip (make_lit (lit_id l0) false) (lit_inv n.fanin0))
                (litFlip (make_lit (lit_id l1) false) (lit_inv n.fanin1))
        rw [litFlip_make_false, litFlip_make_false, ← hinv0, ← hinv1,
          ← lit_decomp, ← lit_decomp]

/-- Relation between a mid-rebuild state of the first optimize run and the
corresponding state of the second run over the rebuilt graph: same arena and
strash, and a map that is the identity below the current arena length. -/
def IdentSt (gfin : AigGraph) (st st2 : OptState) : Prop :=
  st2.new_nodes = st.new_nodes ∧ st2.strash = st.strash ∧
  st2.old2new.length = gfin.nodes.length ∧
  st.new_nodes.length ≤ gfin.nodes.length ∧
  (∀ j, mapval st2 j = if j < st.new_nodes.length then some (make_lit j false) else none)

/-- Evaluation of the resolver at a mapped literal. -/
theorem get_new_lit_memo (h : AigGraph) (fuel : Nat) (hf : fuel ≠ 0) (st : OptState)
    (L res : Nat) (hm : st.old2new.getD (lit_id L) none = some res) :
    get_new_lit h fuel st L = .ok (st, litFlip res (lit_inv L)) := by
  cases fuel with
  | zero => exact absurd rfl hf
  | succ f =>
    simp only [get_new_lit]
    rw [hm]

/-- Evaluation of the resolver at an unmapped gate via its two recursive
calls. -/
theorem get_new_lit_fresh_eval (h : AigGraph) (fuel : Nat) (st : OptState) (L : Nat)
    (n : AigNode) (st1 st2 : OptState) (l0 l1 : Nat)
    (hnone : st.old2new.getD (lit_id L) none = none)
    (hnode : h.nodes.get? (lit_id L) = some n)
    (hcond : ¬(n.is_input = true ∨ lit_id L = 0))
    (ha : get_new_lit h fuel st n.fanin0 = .ok (st1, l0))
    (hb : get_new_lit h fuel st1 n.fanin1 = .ok (st2, l1)) :
    get_new_lit h (fuel + 1) st L =
      .ok ({ (strashStep st2 l0 l1).1 with
              old2new := (strashStep st2 l0 l1).1.old2new.set (lit_id L)
                (some (strashStep st2 l0 l1).2) },
           litFlip (strashStep st2 l0 l1).2 (lit_inv L)) := by
  simp only [get_new_lit]
  rw [hnone]
  simp only [hnode]
  rw [if_neg hcond]
  simp only [ha, hb]

theorem lit_bounds (x : Nat) : 2 * lit_id x ≤ x ∧ x ≤ 2 * lit_id x + 1 := by
  unfold lit_id
  omega

theorem lit_id_mono_strict (x y : Nat) (hxy : x < y) (hne : lit_id x ≠ lit_id y) :
    lit_id x < lit_id y := by
  unfold lit_id at *
  omega

theorem normPair_comm (x y : Nat) : normPair x y = normPair y x := by
  unfold normPair
  split_ifs with h1 h2 h3
  · omega
  · rfl
  · rfl
  · have hxy : x = y := by omega
    rw [hxy]

theorem ne_xor1_of_id_ne (x y : Nat) (h : lit_id x ≠ lit_id y) : x ≠ y ^^^ 1 := by
  intro hc
  apply h
  rw [hc, lit_id_xor1]

/-- Assembling the second run's allocation step: it returns the same literal
and reestablishes the identity relation at the grown arena. -/
theorem mirror_finish (gfin : AigGraph) (fuelr : Nat) (st2 st2b stPrev st2q : OptState)
    (a b r : Nat)
    (heval : get_new_lit gfin fuelr st2 r =
      .ok ({ (strashStep st2b a b).1 with
              old2new := (strashStep st2b a b).1.old2new.set (lit_id r)
                (some (strashStep st2b a b).2) },
           litFlip (strashStep st2b a b).2 (lit_inv r)))
    (hsb : strashStep st2b a b =
      ({ st2b with
          new_nodes := st2b.new_nodes ++ [⟨(normPair a b).1, (normPair a b).2, false⟩],
          strash := (normPair a b, make_lit st2b.new_nodes.length false) :: st2b.strash },
       make_lit st2b.new_nodes.length false))
    (hb1 : st2b.new_nodes = stPrev.new_nodes)
    (hb2 : st2b.strash = stPrev.strash)
    (hb3 : st2b.old2new.length = gfin.nodes.length)
    (e_new : st2q.new_nodes
      = stPrev.new_nodes ++ [⟨(normPair a b).1, (normPair a b).2, false⟩])
    (e_str : st2q.strash
      = (normPair a b, make_lit stPrev.new_nodes.length false) :: stPrev.strash)
    (hrK : lit_id r = stPrev.new_nodes.length)
    (hKM : stPrev.new_nodes.length + 1 ≤ gfin.nodes.length)
    (hb5 : ∀ j, mapval st2b j
      = if j < stPrev.new_nodes.length then some (make_lit j false) else none) :
    ∃ st2q2, get_new_lit gfin fuelr st2 r = .ok (st2q2, r) ∧ IdentSt gfin st2q st2q2 := by
  have hblen : st2b.new_nodes.length = stPrev.new_nodes.length := by rw [hb1]
  refine ⟨{ (strashStep st2b a b).1 with
              old2new := (strashStep st2b a b).1.old2new.set (lit_id r)
                (some (strashStep st2b a b).2) }, ?_, ?_⟩
  · rw [heval]
    have hlit : litFlip (strashStep st2b a b).2 (lit_inv r) = r := by
      rw [hsb]
      show litFlip (make_lit st2b.new_nodes.length false) (lit_inv r) = r
      rw [litFlip_make_false, hblen, ← hrK, ← lit_decomp]
    rw [hlit]
  · have hq_new : ({ (strashStep st2b a b).1 with
        old2new := (strashStep st2b a b).1.old2new.set (lit_id r)
          (some (strashStep st2b a b).2) } : OptState).new_nodes
        = stPrev.new_nodes ++ [⟨(normPair a b).1, (normPair a b).2, false⟩] := by
      show (strashStep st2b a b).1.new_nodes = _
      rw [hsb]
      show st2b.new_nodes ++ _ = _
      rw [hb1]
    have hq_str : ({ (strashStep st2b a b).1 with
        old2new := (strashStep st2b a b).1.old2new.set (lit_id r)
          (some (strashStep st2b a b).2) } : OptState).strash
        = (normPair a b, make_lit stPrev.new_nodes.length false) :: stPrev.strash := by
      show (strashStep st2b a b).1.strash = _
      rw [hsb]
      show (normPair a b, make_lit st2b.new_nodes.length false) :: st2b.strash = _
      rw [hblen, hb2]
    have hq_o2 : ({ (strashStep st2b a b).1 with
        old2new := (strashStep st2b a b).1.old2new.set (lit_id r)
          (some (strashStep st2b a b).2) } : OptState).old2new
        = st2b.old2new.set (lit_id r) (some (make_lit st2b.new_nodes.length false)) := by
      show (strashStep st2b a b).1.old2new.set (lit_id r) (some (strashStep st2b a b).2) = _
      rw [hsb]
    have hqlen : st2q.new_nodes.length = stPrev.new_nodes.length + 1 := by
      rw [e_new, List.length_append, List.length_singleton]
    refine ⟨?_, ?_, ?_, ?_, ?_⟩
    · rw [hq_new, e_new]
    · rw [hq_str, e_str]
    · rw [hq_o2, List.length_set]
      exact hb3
    · omega
    · intro j
      show (({ (strashStep st2b a b).1 with
          old2new := (strashStep st2b a b).1.old2new.set (lit_id r)
            (some (strashStep st2b a b).2) } : OptState).old2new).getD j none = _
      rw [hq_o2, getD_set_full]
      rw [hqlen]
      split
      · rename_i hc
        rw [← hc.1, hrK, hblen, if_pos (by omega)]
      · rename_i hc
        have := hb5 j
        rw [show mapval st2b j = st2b.old2new.getD j none from rfl] at this
        rw [this]
        by_cases hj : j < stPrev.new_nodes.length
        · rw [if_pos hj, if_pos (by omega)]
        · rw [if_neg hj, if_neg ?_]
          intro hj2
          have hjeq : j = stPrev.new_nodes.length := by omega
          exact hc ⟨by rw [hrK, hjeq], by rw [hb3]; omega⟩

/-- Main simulation lemma for optimize's resolver over a well-formed graph:
the run invariant is preserved, the resolved literal is recorded with the
original inversion, memoized calls leave the state unchanged, fresh calls
allocate exactly the last node, and a second run over any arena extending the
final one resolves the returned literal to itself. -/
theorem run_main (g gfin : AigGraph) (hWf : Wf g) :
    ∀ fuel st L st' r,
      RunInv g st →
      get_new_lit g fuel st L = .ok (st', r) →
      (∃ t, gfin.nodes = st'.new_nodes ++ t) →
      RunInv g st' ∧
      (∀ j v, mapval st j = none → mapval st' j = some v → j ≤ lit_id L) ∧
      (mapval st' (lit_id L) = some (make_lit (lit_id r) false) ∧
        lit_inv r = lit_inv L) ∧
      ((∀ v, mapval st (lit_id L) = some v → st' = st) ∧
        (mapval st (lit_id L) = none →
          st.new_nodes.length < st'.new_nodes.length ∧
          lit_id r = st'.new_nodes.length - 1)) ∧
      (∀ st2, IdentSt gfin st st2 →
        ∃ st2q, get_new_lit gfin fuel st2 r = .ok (st2q, r) ∧
          IdentSt gfin st' st2q) := by
  intro fuel
  induction fuel with
  | zero => intro st L st' r _ h _; simp [get_new_lit] at h
  | succ fuel ih =>
    intro st L st' r hR h hpre
    have horig := h
    simp only [get_new_lit] at h
    split at h
    · rename_i res hres
      simp only [Except.ok.injEq, Prod.mk.injEq] at h
      obtain ⟨h1, h2⟩ := h
      subst h1
      subst h2
      have hresrange : lit_id res < st.new_nodes.length := hR.base.2.1 _ _ hres
      have hresform : res = make_lit (lit_id res) false := by
        by_cases h0 : lit_id L = 0
        · rw [h0] at hres
          have hzz : mapval st 0 = some res := hres
          rw [hR.map0] at hzz
          simp only [Option.some.injEq] at hzz
          rw [← hzz]
          decide
        · obtain ⟨k, hk, _⟩ := hR.mapPos _ _ hres h0
          rw [hk, lit_id_make]
      refine ⟨hR, ?_, ⟨?_, ?_⟩, ⟨fun v _ => rfl, ?_⟩, ?_⟩
      · intro j v hjn hjs
        rw [hjn] at hjs
        cases hjs
      · rw [lit_id_litFlip, ← hresform]
        exact hres
      · rw [lit_inv_litFlip, hresform, lit_inv_make]
        simp
      · intro hc
        have hc2 : st.old2new.getD (lit_id L) none = none := hc
        rw [hc2] at hres
        cases hres
      · intro st2 hid
        refine ⟨st2, ?_, hid⟩
        have hm2 : st2.old2new.getD (lit_id (litFlip res (lit_inv L))) none
            = some (make_lit (lit_id (litFlip res (lit_inv L))) false) := by
          have h5 := hid.2.2.2.2 (lit_id (litFlip res (lit_inv L)))
          rw [lit_id_litFlip] at h5
          rw [if_pos hresrange] at h5
          rw [lit_id_litFlip]
          exact h5
        rw [get_new_lit_memo gfin (fuel + 1) (Nat.succ_ne_zero fuel) st2 _ _ hm2]
        rw [litFlip_make_false, ← lit_decomp]
    · rename_i hnone
      split at h
      · simp at h
      · rename_i n hnode
        split at h
        · simp at h
        · rename_i hcond
          split at h
          · simp at h
          · rename_i st1 l0 ha
            split at h
            · simp at h
            · rename_i st2r l1 hb
              simp only [Except.ok.injEq, Prod.mk.injEq] at h
              obtain ⟨hst', hr⟩ := h
              obtain ⟨⟨t1, ht1⟩, hm2a, hm3a⟩ := get_new_lit_mono g fuel st _ st1 l0 ha
              obtain ⟨⟨t2, ht2⟩, hm2b, hm3b⟩ := get_new_lit_mono g fuel st1 _ st2r l1 hb
              obtain ⟨⟨t3, ht3⟩, hsso⟩ := strashStep_mono st2r l0 l1
              obtain ⟨tG, htG⟩ := hpre
              have hst'new : st'.new_nodes = (strashStep st2r l0 l1).1.new_nodes := by
                rw [← hst']
              have hpre2 : ∃ t, gfin.nodes = st2r.new_nodes ++ t :=
                ⟨t3 ++ tG, by rw [htG, hst'new, ht3, List.append_assoc]⟩
              have hpre1 : ∃ t, gfin.nodes = st1.new_nodes ++ t :=
                ⟨t2 ++ (t3 ++ tG), by
                  rw [htG, hst'new, ht3, ht2, List.append_assoc, List.append_assoc]⟩
              obtain ⟨hR1, bound_a, ⟨aftm_a, ainv_a⟩, ⟨memo_a, fresh_a⟩, mirror_a⟩ :=
                ih st n.fanin0 st1 l0 hR ha hpre1
              obtain ⟨hR2, bound_b, ⟨aftm_b, ainv_b⟩, ⟨memo_b, fresh_b⟩, mirror_b⟩ :=
                ih st1 n.fanin1 st2r l1 hR1 hb hpre2
              have hilen : lit_id L < g.nodes.length := get?_some_lt _ _ _ hnode
              have hL0 : lit_id L ≠ 0 := fun hc => hcond (Or.inr hc)
              have hni : n.is_input = false := by
                cases hq : n.is_input
                · rfl
                · exact absurd (Or.inl hq) hcond
              have hflt := hWf.gatesLt (lit_id L) hilen hL0 n hnode hni
              have hInone1 : mapval st1 (lit_id L) = none := by
                cases hc : mapval st1 (lit_id L) with
                | none => rfl
                | some v =>
                  have := bound_a (lit_id L) v hnone hc
                  omega
              have hInone2 : mapval st2r (lit_id L) = none := by
                cases hc : mapval st2r (lit_id L) with
                | none => rfl
                | some v =>
                  have := bound_b (lit_id L) v hInone1 hc
                  omega
              have hmf0 : mapval st2r (lit_id n.fanin0)
                  = some (make_lit (lit_id l0) false) := hm3b _ _ aftm_a
              have hmf1 : mapval st2r (lit_id n.fanin1)
                  = some (make_lit (lit_id l1) false) := aftm_b
              obtain ⟨hl0, hl1, hidne, hnel, hnc, hmiss⟩ :=
                fresh_facts g st2r hWf hR2 (lit_id L) n l0 l1 hnode hL0 hni hmf0 hmf1
                  ainv_a ainv_b hInone2
              have hsr := strashStep_fresh st2r l0 l1 hl0 hl1 hnel hnc hmiss
              have hrec : st' = (⟨st2r.new_nodes
                    ++ [⟨(normPair l0 l1).1, (normPair l0 l1).2, false⟩],
                  (normPair l0 l1, make_lit st2r.new_nodes.length false) :: st2r.strash,
                  st2r.old2new.set (lit_id L)
                    (some (make_lit st2r.new_nodes.length false))⟩ : OptState) := by
                rw [← hst', hsr]
              have he_r : r = make_lit st2r.new_nodes.length (lit_inv L) := by
                rw [← hr, hsr]
                show litFlip (make_lit st2r.new_nodes.length false) (lit_inv L) = _
                rw [litFlip_make_false]
              have hlen1 : st1.new_nodes.length = st.new_nodes.length + t1.length := by
                rw [ht1, List.length_append]
              have hlen2 : st2r.new_nodes.length = st1.new_nodes.length + t2.length := by
                rw [ht2, List.length_append]
              have hlen' : st'.new_nodes.length = st2r.new_nodes.length + 1 := by
                rw [hrec]
                show (st2r.new_nodes
                    ++ [(⟨(normPair l0 l1).1, (normPair l0 l1).2, false⟩
                      : AigNode)]).length = _
                rw [List.length_append, List.length_singleton]
              have hbase' : stInv st' :=
                (get_new_lit_inv g (fuel + 1) st L st' r hR.base horig).1
              have hR' : RunInv g st' := by
                rw [hrec]
                exact RunInv_create g st2r hWf hR2 (lit_id L) n l0 l1 hnode hL0 hni
                  hmf0 hmf1 ainv_a ainv_b hInone2 (by rw [← hrec]; exact hbase')
              have hbound : ∀ j v, mapval st j = none → mapval st' j = some v →
                  j ≤ lit_id L := by
                intro j v hjn hjs
                rw [hrec] at hjs
                have hjs2 : (st2r.old2new.set (lit_id L)
                    (some (make_lit st2r.new_nodes.length false))).getD j none
                    = some v := hjs
                rw [getD_set_full] at hjs2
                split at hjs2
                · rename_i hc
                  omega
                · rename_i hc
                  cases hc1 : mapval st1 j with
                  | some w =>
                    have hj1 := bound_a j w hjn hc1
                    omega
                  | none =>
                    have hj2 := bound_b j v hc1 hjs2
                    omega
              have hmap' : mapval st' (lit_id L)
                  = some (make_lit (lit_id r) false) := by
                have hltL : lit_id L < st2r.old2new.length := by
                  rw [hR2.o2len]
                  exact hilen
                rw [hrec]
                show (st2r.old2new.set (lit_id L)
                    (some (make_lit st2r.new_nodes.length false))).getD (lit_id L) none
                    = _
                rw [getD_set_full, if_pos ⟨rfl, hltL⟩, he_r, lit_id_make]
              have hinv' : lit_inv r = lit_inv L := by
                rw [he_r, lit_inv_make]
              have hmemo : ∀ v, mapval st (lit_id L) = some v → st' = st := by
                intro v hv
                have hv2 : st.old2new.getD (lit_id L) none = some v := hv
                rw [hnone] at hv2
                cases hv2
              have hfreshc : mapval st (lit_id L) = none →
                  st.new_nodes.length < st'.new_nodes.length ∧
                  lit_id r = st'.new_nodes.length - 1 := by
                intro _
                refine ⟨by omega, ?_⟩
                rw [he_r, lit_id_make]
                omega
              have hmirror : ∀ st2, IdentSt gfin st st2 →
                  ∃ st2q, get_new_lit gfin (fuel + 1) st2 r = .ok (st2q, r) ∧
                    IdentSt gfin st' st2q := by
                intro st2 hid
                have hrK : lit_id r = st2r.new_nodes.length := by
                  rw [he_r, lit_id_make]
                have hKM : st2r.new_nodes.length + 1 ≤ gfin.nodes.length := by
                  have hgl : gfin.nodes.length = st'.new_nodes.length + tG.length := by
                    rw [htG, List.length_append]
                  omega
                have hnone2 : st2.old2new.getD (lit_id r) none = none := by
                  have h5 := hid.2.2.2.2 (lit_id r)
                  rw [if_neg (by rw [hrK]; omega)] at h5
                  exact h5
                have hKlt : lit_id r < st'.new_nodes.length := by
                  rw [hrK]
                  omega
                have hnodeK : gfin.nodes.get? (lit_id r)
                    = some ⟨(normPair l0 l1).1, (normPair l0 l1).2, false⟩ := by
                  rw [prefix_get? st'.new_nodes gfin.nodes ⟨tG, htG⟩ (lit_id r) hKlt]
                  rw [hrec]
                  show (st2r.new_nodes
                      ++ [(⟨(normPair l0 l1).1, (normPair l0 l1).2, false⟩
                        : AigNode)]).get? (lit_id r) = _
                  rw [hrK, List.get?_eq_getElem?, List.getElem?_append,
                    if_neg (by omega), Nat.sub_self]
                  rfl
                have hcond2 : ¬((⟨(normPair l0 l1).1, (normPair l0 l1).2, false⟩
                    : AigNode).is_input = true ∨ lit_id r = 0) := by
                  intro hc
                  rcases hc with hc | hc
                  · simp at hc
                  · rw [hrK] at hc
                    have := hR.nlen
                    omega
                have hfp : fuel ≠ 0 := by
                  intro hc
                  rw [hc] at ha
                  simp [get_new_lit] at ha
                by_cases hlt : l0 < l1
                · have hpr : normPair l0 l1 = (l0, l1) := by
                    unfold normPair
                    rw [if_neg (by omega)]
                  obtain ⟨st2a, heqa, hida⟩ := mirror_a st2 hid
                  obtain ⟨st2b, heqb, hidb⟩ := mirror_b st2a hida
                  have ha2 : get_new_lit gfin fuel st2
                      ((⟨(normPair l0 l1).1, (normPair l0 l1).2, false⟩
                        : AigNode).fanin0) = .ok (st2a, l0) := by
                    show get_new_lit gfin fuel st2 (normPair l0 l1).1 = _
                    rw [hpr]
                    exact heqa
                  have hb2 : get_new_lit gfin fuel st2a
                      ((⟨(normPair l0 l1).1, (normPair l0 l1).2, false⟩
                        : AigNode).fanin1) = .ok (st2b, l1) := by
                    show get_new_lit gfin fuel st2a (normPair l0 l1).2 = _
                    rw [hpr]
                    exact heqb
                  have heval := get_new_lit_fresh_eval gfin fuel st2 r
                    ⟨(normPair l0 l1).1, (normPair l0 l1).2, false⟩ st2a st2b l0 l1
                    hnone2 hnodeK hcond2 ha2 hb2
                  have hsb : strashStep st2b l0 l1 =
                      ({ st2b with
                          new_nodes := st2b.new_nodes
                            ++ [⟨(normPair l0 l1).1, (normPair l0 l1).2, false⟩],
                          strash := (normPair l0 l1,
                            make_lit st2b.new_nodes.length false) :: st2b.strash },
                       make_lit st2b.new_nodes.length false) :=
                    strashStep_fresh st2b l0 l1 hl0 hl1 hnel hnc
                      (by rw [hidb.2.1]; exact hmiss)
                  exact mirror_finish gfin (fuel + 1) st2 st2b st2r st' l0 l1 r heval
                    hsb hidb.1 hidb.2.1 hidb.2.2.1
                    (by rw [hrec]) (by rw [hrec]) hrK hKM hidb.2.2.2.2
                · have hlt2 : l1 < l0 := by omega
                  have hpr : normPair l0 l1 = (l1, l0) := by
                    unfold normPair
                    rw [if_pos (by omega)]
                  have hf01lt : lit_id n.fanin0 < lit_id n.fanin1 := by
                    obtain ⟨hg2, hg01, hgid⟩ := hWf.gatesNorm (lit_id L) n hnode hL0 hni
                    exact lit_id_mono_strict _ _ hg01 hgid
                  have hw : ∃ w, mapval st1 (lit_id n.fanin1) = some w := by
                    cases hc : mapval st1 (lit_id n.fanin1) with
                    | some w => exact ⟨w, rfl⟩
                    | none =>
                      exfalso
                      obtain ⟨hlt1, hl1id⟩ := fresh_b hc
                      have hla : lit_id l0 < st1.new_nodes.length :=
                        (get_new_lit_inv g fuel st n.fanin0 st1 l0 hR.base ha).2
                      have hb0 := lit_bounds l0
                      have hb1' := lit_bounds l1
                      omega
                  obtain ⟨w, hwm⟩ := hw
                  have hst21 : st2r = st1 := memo_b w hwm
                  have hw0 : ∃ w0, mapval st (lit_id n.fanin1) = some w0 := by
                    cases hc : mapval st (lit_id n.fanin1) with
                    | some w0 => exact ⟨w0, rfl⟩
                    | none =>
                      exfalso
                      have := bound_a (lit_id n.fanin1) w hc hwm
                      omega
                  obtain ⟨w0, hw0m⟩ := hw0
                  have hw0lt : lit_id w0 < st.new_nodes.length := hR.base.2.1 _ _ hw0m
                  have hw0m1 : mapval st1 (lit_id n.fanin1) = some w0 := hm3a _ _ hw0m
                  have hweq : w = w0 := by
                    have h12 := hwm.symm.trans hw0m1
                    simp only [Option.some.injEq] at h12
                    exact h12
                  have haft1 : mapval st1 (lit_id n.fanin1)
                      = some (make_lit (lit_id l1) false) := by
                    rw [← hst21]
                    exact aftm_b
                  have hl1lt : lit_id l1 < st.new_nodes.length := by
                    have h12 := hwm.symm.trans haft1
                    simp only [Option.some.injEq] at h12
                    have hq2 := congrArg lit_id h12
                    rw [lit_id_make] at hq2
                    rw [← hq2, hweq]
                    exact hw0lt
                  have hmeml1 : st2.old2new.getD (lit_id l1) none
                      = some (make_lit (lit_id l1) false) := by
                    have h5 := hid.2.2.2.2 (lit_id l1)
                    rw [if_pos hl1lt] at h5
                    exact h5
                  have heqa1 : get_new_lit gfin fuel st2 l1 = .ok (st2, l1) := by
                    rw [get_new_lit_memo gfin fuel hfp st2 l1 _ hmeml1]
                    rw [litFlip_make_false, ← lit_decomp]
                  obtain ⟨st2a, heqa, hida⟩ := mirror_a st2 hid
                  have hida2 : IdentSt gfin st2r st2a := by
                    rw [hst21]
                    exact hida
                  have ha2 : get_new_lit gfin fuel st2
                      ((⟨(normPair l0 l1).1, (normPair l0 l1).2, false⟩
                        : AigNode).fanin0) = .ok (st2, l1) := by
                    show get_new_lit gfin fuel st2 (normPair l0 l1).1 = _
                    rw [hpr]
                    exact heqa1
                  have hb2 : get_new_lit gfin fuel st2
                      ((⟨(normPair l0 l1).1, (normPair l0 l1).2, false⟩
                        : AigNode).fanin1) = .ok (st2a, l0) := by
                    show get_new_lit gfin fuel st2 (normPair l0 l1).2 = _
                    rw [hpr]
                    exact heqa
                  have heval := get_new_lit_fresh_eval gfin fuel st2 r
                    ⟨(normPair l0 l1).1, (normPair l0 l1).2, false⟩ st2 st2a l1 l0
                    hnone2 hnodeK hcond2 ha2 hb2
                  have hsb : strashStep st2a l1 l0 =
                      ({ st2a with
                          new_nodes := st2a.new_nodes
                            ++ [⟨(normPair l1 l0).1, (normPair l1 l0).2, false⟩],
                          strash := (normPair l1 l0,
                            make_lit st2a.new_nodes.length false) :: st2a.strash },
                       make_lit st2a.new_nodes.length false) :=
                    strashStep_fresh st2a l1 l0 hl1 hl0 (fun hc => hnel hc.symm)
                      (ne_xor1_of_id_ne l1 l0 (fun hc => hidne hc.symm))
                      (by rw [hida2.2.1, normPair_comm]; exact hmiss)
                  exact mirror_finish gfin (fuel + 1) st2 st2a st2r st' l1 l0 r heval
                    hsb hida2.1 hida2.2.1 hida2.2.2.1
                    (by rw [hrec, normPair_comm l1 l0])
                    (by rw [hrec, normPair_comm l1 l0]) hrK hKM hida2.2.2.2.2
              exact ⟨hR', hbound, ⟨hmap', hinv'⟩, ⟨hmemo, hfreshc⟩, hmirror⟩

/-- On a graph satisfying invariant 2, a successful resolver call succeeds
with the same result at any fuel of at least lit_id + 2. -/
theorem get_new_lit_fuel (h : AigGraph) (hF : faninsLt h.nodes) :
    ∀ fuel st L res, get_new_lit h fuel st L = .ok res →
      ∀ fuel2, lit_id L + 2 ≤ fuel2 → get_new_lit h fuel2 st L = .ok res := by
  intro fuel
  induction fuel with
  | zero => intro st L res h0 fuel2 hf2; simp [get_new_lit] at h0
  | succ fuel ih =>
    intro st L res h0 fuel2 hf2
    obtain ⟨f2, rfl⟩ : ∃ f2, fuel2 = f2 + 1 := ⟨fuel2 - 1, by omega⟩
    simp only [get_new_lit] at h0 ⊢
    split at h0
    · exact h0
    · rename_i hnone
      split at h0
      · simp at h0
      · rename_i n hnode
        split at h0
        · simp at h0
        · rename_i hcond
          rw [if_neg hcond]
          split at h0
          · simp at h0
          · rename_i st1 l0 ha
            split at h0
            · simp at h0
            · rename_i st2 l1 hb
              have hilen : lit_id L < h.nodes.length := get?_some_lt _ _ _ hnode
              have hL0 : lit_id L ≠ 0 := fun hc => hcond (Or.inr hc)
              have hni : n.is_input = false := by
                cases hq : n.is_input
                · rfl
                · exact absurd (Or.inl hq) hcond
              have hflt := hF (lit_id L) hilen hL0 n hnode hni
              have ha2 := ih st n.fanin0 (st1, l0) ha f2 (by omega)
              have hb2 := ih st1 n.fanin1 (st2, l1) hb f2 (by omega)
              simp only [ha2, hb2]
              exact h0

/-- Mirroring an entire successful output-resolution pass of the first run:
the second run, started on the rebuilt graph in the identity state, maps every
resolved output literal to itself. -/
theorem resolve_mirror (g gfin : AigGraph) (hWf : Wf g) (hF : faninsLt gfin.nodes)
    (fuel fuel2 : Nat) :
    ∀ outs st st' rs st2,
      RunInv g st →
      resolveOutputs g fuel outs st = .ok (st', rs) →
      (∃ t, gfin.nodes = st'.new_nodes ++ t) →
      IdentSt gfin st st2 →
      (∀ r, r ∈ rs → lit_id r + 2 ≤ fuel2) →
      ∃ st2q, resolveOutputs gfin fuel2 rs st2 = .ok (st2q, rs) ∧
        IdentSt gfin st' st2q := by
  intro outs
  induction outs with
  | nil =>
    intro st st' rs st2 hR h hpre hid hfb
    simp only [resolveOutputs, Except.ok.injEq, Prod.mk.injEq] at h
    obtain ⟨h1, h2⟩ := h
    subst h1
    subst h2
    exact ⟨st2, rfl, hid⟩
  | cons o rest ih =>
    intro st st' rs st2 hR h hpre hid hfb
    simp only [resolveOutputs] at h
    split at h
    · simp at h
    · rename_i st1 r1 ha
      split at h
      · simp at h
      · rename_i stb rs2 hb
        simp only [Except.ok.injEq, Prod.mk.injEq] at h
        obtain ⟨h1, h2⟩ := h
        subst h1
        subst h2
        have hR1b : stInv st1 := (get_new_lit_inv g fuel st o st1 r1 hR.base ha).1
        obtain ⟨_, ⟨t2, ht2⟩, _⟩ := resolveOutputs_inv g fuel rest st1 stb rs2 hR1b hb
        obtain ⟨tG, htG⟩ := hpre
        have hpre1 : ∃ t, gfin.nodes = st1.new_nodes ++ t :=
          ⟨t2 ++ tG, by rw [htG, ht2, List.append_assoc]⟩
        obtain ⟨hR1, _, _, _, hmir⟩ := run_main g gfin hWf fuel st o st1 r1 hR ha hpre1
        obtain ⟨st2a, hga, hida⟩ := hmir st2 hid
        have hga2 : get_new_lit gfin fuel2 st2 r1 = .ok (st2a, r1) :=
          get_new_lit_fuel gfin hF fuel st2 r1 (st2a, r1) hga fuel2
            (hfb r1 (List.mem_cons_self r1 rs2))
        obtain ⟨st2q, hrec2, hidq⟩ := ih st1 stb rs2 st2a hR1 hb ⟨tG, htG⟩ hida
          (fun r hr => hfb r (List.mem_cons_of_mem r1 hr))
        refine ⟨st2q, ?_, hidq⟩
        simp only [resolveOutputs, hga2, hrec2]

/-- Evaluation of optimize from its two computation steps. -/
theorem optimize_eval (g : AigGraph) (n0 : AigNode) (rest : List AigNode)
    (st2 : OptState) (outs : List Nat)
    (hn : g.nodes = n0 :: rest)
    (hres : resolveOutputs g (g.nodes.length + 1) g.outputs
      (seedInputs g (initOptState g n0)).1 = .ok (st2, outs)) :
    optimize g = .ok
      { nodes := st2.new_nodes,
        inputs := (seedInputs g (initOptState g n0)).2,
        outputs := outs,
        computed_table := st2.strash } := by
  unfold optimize
  split
  · rename_i hnil
    rw [hn] at hnil
    cases hnil
  · rename_i n0q restq hnq
    have hq : n0q = n0 := by
      rw [hn] at hnq
      injection hnq with e1 e2
      exact e1.symm
    subst hq
    dsimp only
    rw [hres]

/-- A second optimize over the result of a successful optimize of a
well-formed graph reproduces that result exactly. -/
theorem optimize_idem (g g1 : AigGraph) (hWf : Wf g) (h1 : optimize g = .ok g1) :
    optimize g1 = .ok g1 := by
  obtain ⟨n0, rest, stF, outsF, hn, hres, hg1⟩ := optimize_ok_elim g g1 h1
  have hRseed := seed_RunInv g n0 hWf
  have hsf := seedFold_facts g.inputs (initOptState g n0, [])
  have hS1nodes : (seedInputs g (initOptState g n0)).1.new_nodes
      = [n0] ++ List.replicate g.inputs.length ⟨0, 0, true⟩ := hsf.1
  have hS1len : (seedInputs g (initOptState g n0)).1.new_nodes.length
      = g.inputs.length + 1 := by
    rw [hS1nodes, List.length_append, List.length_singleton, List.length_replicate]
    omega
  have hS1ids : (seedInputs g (initOptState g n0)).2
      = List.range' 1 g.inputs.length := hsf.2.1
  have hS1str : (seedInputs g (initOptState g n0)).1.strash = [] := hsf.2.2.2
  obtain ⟨hstFinv, ⟨tl, htl⟩, houtB⟩ :=
    resolveOutputs_inv g (g.nodes.length + 1) g.outputs
      (seedInputs g (initOptState g n0)).1 stF outsF hRseed.base hres
  have hg1nodes : g1.nodes = stF.new_nodes := by rw [hg1]
  have hg1in : g1.inputs = List.range' 1 g.inputs.length := by
    rw [hg1]
    exact hS1ids
  have hg1out : g1.outputs = outsF := by rw [hg1]
  have hlenF : g.inputs.length + 1 ≤ g1.nodes.length := by
    have hq : stF.new_nodes.length
        = (seedInputs g (initOptState g n0)).1.new_nodes.length + tl.length := by
      rw [htl, List.length_append]
    rw [hg1nodes]
    omega
  have hF : faninsLt g1.nodes := by
    rw [hg1nodes]
    exact hstFinv.1
  have hg1cons : g1.nodes
      = n0 :: (List.replicate g.inputs.length ⟨0, 0, true⟩ ++ tl) := by
    rw [hg1nodes, htl, hS1nodes]
    simp
  have hg1inlen : g1.inputs.length = g.inputs.length := by
    rw [hg1in, List.length_range']
  have hinit2len : (initOptState g1 n0).old2new.length = g1.nodes.length := by
    show ((List.replicate g1.nodes.length none).set 0 (some 0)).length = _
    rw [List.length_set, List.length_replicate]
  have hsf2 := seedFold_facts g1.inputs (initOptState g1 n0, [])
  have hS2nodes : (seedInputs g1 (initOptState g1 n0)).1.new_nodes
      = [n0] ++ List.replicate g.inputs.length ⟨0, 0, true⟩ := by
    have h2 : (seedInputs g1 (initOptState g1 n0)).1.new_nodes
        = [n0] ++ List.replicate g1.inputs.length ⟨0, 0, true⟩ := hsf2.1
    rw [hg1inlen] at h2
    exact h2
  have hS2eq : (seedInputs g1 (initOptState g1 n0)).1.new_nodes
      = (seedInputs g (initOptState g n0)).1.new_nodes := by
    rw [hS2nodes, hS1nodes]
  have hS2str : (seedInputs g1 (initOptState g1 n0)).1.strash = [] := hsf2.2.2.2
  have hS2o2len : (seedInputs g1 (initOptState g1 n0)).1.old2new.length
      = g1.nodes.length := by
    have h2 : (seedInputs g1 (initOptState g1 n0)).1.old2new.length
        = (initOptState g1 n0).old2new.length := hsf2.2.2.1
    rw [h2, hinit2len]
  have hS2ids : (seedInputs g1 (initOptState g1 n0)).2
      = List.range' 1 g.inputs.length := by
    have h2 : (seedInputs g1 (initOptState g1 n0)).2
        = List.range' 1 g1.inputs.length := hsf2.2.1
    rw [hg1inlen] at h2
    exact h2
  have hS2map : ∀ j, mapval (seedInputs g1 (initOptState g1 n0)).1 j
      = if j < g.inputs.length + 1 then some (make_lit j false) else none := by
    intro j
    by_cases hj : j < g.inputs.length + 1
    · rw [if_pos hj]
      by_cases hj0 : j = 0
      · subst hj0
        have hnm : 0 ∉ g1.inputs := by
          rw [hg1in]
          intro hc
          have := List.mem_range'_1.mp hc
          omega
        have hstep : mapval (seedInputs g1 (initOptState g1 n0)).1 0
            = mapval (initOptState g1 n0) 0 :=
          seedFold_mapval_notmem g1.inputs (initOptState g1 n0, []) 0 hnm
        rw [hstep]
        show ((List.replicate g1.nodes.length none).set 0 (some 0)).getD 0 none
            = some (make_lit 0 false)
        rw [getD_set_eq]
        · decide
        · rw [List.length_replicate]
          omega
      · have hq : j - 1 < g1.inputs.length := by
          rw [hg1inlen]
          omega
        have hrange : ∀ i, i ∈ g1.inputs →
            i < (initOptState g1 n0, ([] : List Nat)).1.old2new.length := by
          intro i hi
          rw [hg1in] at hi
          have hmem := List.mem_range'_1.mp hi
          show i < (initOptState g1 n0).old2new.length
          rw [hinit2len]
          omega
        have hnd : g1.inputs.Nodup := by
          rw [hg1in]
          exact List.nodup_range' 1 g.inputs.length
        have hv := seedFold_mapval g1.inputs (initOptState g1 n0, []) hnd hrange
          (j - 1) hq
        have hgd : g1.inputs.getD (j - 1) 0 = j := by
          rw [hg1in]
          have hq2 : j - 1 < (List.range' 1 g.inputs.length).length := by
            rw [List.length_range']
            omega
          rw [getD_of_getElem _ _ hq2, List.getElem_range']
          omega
        rw [hgd] at hv
        have hv2 : mapval (seedInputs g1 (initOptState g1 n0)).1 j
            = some (make_lit (1 + (j - 1)) false) := hv
        have hvl : (1 : Nat) + (j - 1) = j := by omega
        rw [hv2, hvl]
    · rw [if_neg hj]
      have hnm : j ∉ g1.inputs := by
        rw [hg1in]
        intro hc
        have := List.mem_range'_1.mp hc
        omega
      have hstep : mapval (seedInputs g1 (initOptState g1 n0)).1 j
          = mapval (initOptState g1 n0) j :=
        seedFold_mapval_notmem g1.inputs (initOptState g1 n0, []) j hnm
      rw [hstep]
      show ((List.replicate g1.nodes.length none).set 0 (some 0)).getD j none = none
      rw [getD_set_ne _ _ _ _ _ (by omega), getD_replicate, ite_self]
  have hident : IdentSt g1 (seedInputs g (initOptState g n0)).1
      (seedInputs g1 (initOptState g1 n0)).1 := by
    refine ⟨hS2eq, ?_, hS2o2len, ?_, ?_⟩
    · rw [hS2str, hS1str]
    · rw [hS1len]
      exact hlenF
    · intro j
      rw [hS1len]
      exact hS2map j
  have hfb : ∀ r, r ∈ outsF → lit_id r + 2 ≤ g1.nodes.length + 1 := by
    intro r hr
    have hb := houtB r hr
    have h2 : stF.new_nodes.length = g1.nodes.length := by rw [hg1nodes]
    omega
  obtain ⟨st2q, hro2, hidq⟩ := resolve_mirror g g1 hWf hF (g.nodes.length + 1)
    (g1.nodes.length + 1) g.outputs (seedInputs g (initOptState g n0)).1 stF outsF
    (seedInputs g1 (initOptState g1 n0)).1 hRseed hres
    ⟨[], by rw [hg1nodes, List.append_nil]⟩ hident hfb
  have hres2 : resolveOutputs g1 (g1.nodes.length + 1) g1.outputs
      (seedInputs g1 (initOptState g1 n0)).1 = .ok (st2q, outsF) := by
    rw [hg1out]
    exact hro2
  have hopt := optimize_eval g1 n0 _ st2q outsF hg1cons hres2
  rw [hopt]
  have hfin : ({ nodes := st2q.new_nodes,
                 inputs := (seedInputs g1 (initOptState g1 n0)).2,
                 outputs := outsF,
                 computed_table := st2q.strash } : AigGraph) = g1 := by
    rw [hidq.1, hidq.2.1, hS2ids, ← hS1ids, hg1]
  rw [hfin]

/-- Concrete witness graph for idempotence: constant, two inputs, one
normalized AND gate, one output, with its hash entry. -/
def c6g : AigGraph :=
  ⟨[⟨0, 0, false⟩, ⟨0, 0, true⟩, ⟨0, 0, true⟩, ⟨2, 4, false⟩],
   [1, 2], [6], [((2, 4), 6)]⟩

theorem c6gWf : Wf c6g := by
  refine ⟨?_, ?_, ?_, ?_, ?_, ?_, ?_, ?_, ?_⟩
  · decide
  · intro n hn
    have he : some (⟨0, 0, false⟩ : AigNode) = some n := hn
    injection he with he2
    rw [← he2]
  · decide
  · decide
  · intro i n hn hni
    have hi : i < 4 := get?_some_lt _ _ _ hn
    interval_cases i
    · have he : some (⟨0, 0, false⟩ : AigNode) = some n := hn
      injection he with he2
      rw [← he2] at hni
      exact absurd hni (by decide)
    · decide
    · decide
    · have he : some (⟨2, 4, false⟩ : AigNode) = some n := hn
      injection he with he2
      rw [← he2] at hni
      exact absurd hni (by decide)
  · intro j hj hj0 n hn hni
    have hj4 : j < 4 := hj
    interval_cases j
    · exact absurd rfl hj0
    · have he : some (⟨0, 0, true⟩ : AigNode) = some n := hn
      injection he with he2
      rw [← he2] at hni
      exact absurd hni (by decide)
    · have he : some (⟨0, 0, true⟩ : AigNode) = some n := hn
      injection he with he2
      rw [← he2] at hni
      exact absurd hni (by decide)
    · have he : some (⟨2, 4, false⟩ : AigNode) = some n := hn
      injection he with he2
      rw [← he2]
      decide
  · intro j n hn hj0 hni
    have hj4 : j < 4 := get?_some_lt _ _ _ hn
    interval_cases j
    · exact absurd rfl hj0
    · have he : some (⟨0, 0, true⟩ : AigNode) = some n := hn
      injection he with he2
      rw [← he2] at hni
      exact absurd hni (by decide)
    · have he : some (⟨0, 0, true⟩ : AigNode) = some n := hn
      injection he with he2
      rw [← he2] at hni
      exact absurd hni (by decide)
    · have he : some (⟨2, 4, false⟩ : AigNode) = some n := hn
      injection he with he2
      rw [← he2]
      decide
  · intro j j2 n n2 h1 h2 hj0 hj20 hni1 hni2 hf0 hf1
    have hb1 : j < 4 := get?_some_lt _ _ _ h1
    have hb2 : j2 < 4 := get?_some_lt _ _ _ h2
    interval_cases j <;> interval_cases j2 <;>
      first
        | rfl
        | exact absurd rfl hj0
        | exact absurd rfl hj20
        | (injection h1 with e1; rw [← e1] at hni1; exact absurd hni1 (by decide))
        | (injection h2 with e2; rw [← e2] at hni2; exact absurd hni2 (by decide))
  · decide

/-- C6: optimize is idempotent: on a graph satisfying the data-model
invariants, a second optimize reproduces the first result exactly, hence with
identical gate count, depth and inverter count. -/
theorem c6_optimize_idempotent (g g1 g2 : AigGraph) (hWf : Wf g)
    (h1 : optimize g = .ok g1) (h2 : optimize g1 = .ok g2) :
    g2 = g1 ∧ countAnds g2 = countAnds g1 ∧ depth g2 = depth g1 ∧
      countInverters g2 = countInverters g1 := by
  have hi := optimize_idem g g1 hWf h1
  rw [hi] at h2
  have he : g1 = g2 := by injection h2
  subst he
  exact ⟨rfl, rfl, rfl, rfl⟩

theorem c6_witness :
    optimize c6g = .ok c6g ∧
    (c6g = c6g ∧ countAnds c6g = countAnds c6g ∧ depth c6g = depth c6g ∧
      countInverters c6g = countInverters c6g) :=
  ⟨rfl, c6_optimize_idempotent c6g c6g c6g c6gWf rfl rfl⟩
